import Mathlib

/-!
Verification of the shared-memory datastore (`appdatastore.shared_mem`,
`appdatastore.shared_mem_item`, `appdatastore.base`) against its
natural-language specification.

The embedding models the OS shared-memory world as a finite map from segment
names to fixed-size byte buffers (bytes are `Nat`, zero is the padding byte),
plus the set of currently existing lock resources.  Each Python method becomes
a Lean function threading this state explicitly; Python exceptions become an
`Option Err` / `Except Err` component that is carried alongside the mutated
state (an exception in Python does not roll back prior mutations).

Time is passed explicitly: the library's `timestamp()` becomes a `now : Nat`
parameter, and `timestamp(offset=t)` becomes `now + t`.
-/

set_option autoImplicit false

namespace AppDataStore

/-!
## Codec

Modelled from the spec: the serialisation codec applied by `_encode`/`_decode`
when `_store_serialised` is true with `SerialisationType.PICKLE` is not present
under `src/` (`appdatastore/typing.py` and the consumer of
`_store_serialised`/`_serialisation_method` are missing; `src`'s `base.py`
`_encode` only covers the encrypt/JSON cases).  Per the spec the codec is an
external collaborator that "must produce self-delimiting encodings (so a
zero-byte value is distinguishable from a zero-padded tail)" and "decoding
must ignore trailing zero padding correctly".  We therefore model pickle by a
concrete self-delimiting codec over the value universe the store uses:
byte strings, text strings, integers, the index (a list of key names) and the
expiry table (a dict from key name to integer timestamp).
-/

/-- The universe of values stored through the codec. -/
inductive PyObj where
  | pyBytes : List Nat → PyObj
  | pyStr : String → PyObj
  | pyNat : Nat → PyObj
  | pyStrList : List String → PyObj
  | pyDict : List (String × Nat) → PyObj
deriving DecidableEq, Repr

/-- Character codes of a string. -/
def strBytes (s : String) : List Nat := s.data.map Char.toNat

/-- A length-prefixed string, used inside list bodies. -/
def strChunk (s : String) : List Nat := s.data.length :: strBytes s

/-- A length-prefixed key followed by its integer value, used in dict bodies. -/
def dictChunk (kv : String × Nat) : List Nat :=
  kv.1.data.length :: (strBytes kv.1 ++ [kv.2])

/-- The tagged body of an encoded value. -/
def bodyEnc : PyObj → List Nat
  | .pyBytes bs => 0 :: bs
  | .pyStr s => 1 :: strBytes s
  | .pyNat n => [2, n]
  | .pyStrList l => 3 :: (l.map strChunk).flatten
  | .pyDict kvs => 4 :: (kvs.map dictChunk).flatten

/-- Modelled from the spec: self-delimiting encoding (stand-in for pickle).
The leading byte is the body length plus one, hence never the padding byte
zero, so the encoding is distinguishable from a zero-padded tail. -/
def encode (v : PyObj) : List Nat := ((bodyEnc v).length + 1) :: bodyEnc v

/-- Rebuild a string from character codes. -/
def decodeStr (cs : List Nat) : String := String.mk (cs.map Char.ofNat)

/-- Parse a concatenation of length-prefixed strings.  The fuel argument
(one unit per chunk; the input length always suffices) keeps the recursion
structural so the parser reduces definitionally. -/
def parseStrs : Nat → List Nat → Option (List String)
  | _, [] => some []
  | 0, _ :: _ => none
  | fuel + 1, n :: rest =>
    if n ≤ rest.length then
      match parseStrs fuel (rest.drop n) with
      | some l => some (decodeStr (rest.take n) :: l)
      | none => none
    else none

/-- Parse a concatenation of dict chunks (fuel as in `parseStrs`). -/
def parseKVs : Nat → List Nat → Option (List (String × Nat))
  | _, [] => some []
  | 0, _ :: _ => none
  | fuel + 1, n :: rest =>
    if n + 1 ≤ rest.length then
      match parseKVs fuel (rest.drop (n + 1)) with
      | some l => some ((decodeStr (rest.take n), rest.getD n 0) :: l)
      | none => none
    else none

/-- Parse a body back into a value. -/
def parseBody : List Nat → Option PyObj
  | 0 :: bs => some (.pyBytes bs)
  | 1 :: cs => some (.pyStr (decodeStr cs))
  | [2, n] => some (.pyNat n)
  | 3 :: rest => (parseStrs rest.length rest).map .pyStrList
  | 4 :: rest => (parseKVs rest.length rest).map .pyDict
  | _ => none

/-- Modelled from the spec: decoding, which ignores the zero padding after a
complete encoding (stand-in for unpickling). -/
def decode (bs : List Nat) : Option PyObj :=
  match bs with
  | [] => none
  | 0 :: _ => none
  | (m + 1) :: rest =>
    if m ≤ rest.length then parseBody (rest.take m) else none

/-!
## Shared-memory world and item handles

`appdatastore/shared_mem_item.py`.  A `Segment` is one named shared-memory
region (`multiprocessing.shared_memory.SharedMemory`): fixed size, buffer of
exactly `size` bytes.  A `World` is the host state: the existing segments and
the existing lock resources (creation of a lock resource is the atomic
acquire).  A `Handle` is one `DataStoreSharedMemItem` instance: its name,
whether `self._shm` is attached, and `self._lock` (the name of the lock
resource this handle created, if any).

Sequential semantics: the embedding models one process operating while no
other process changes the world.  The bounded spin-wait of `_acquire_lock`
(retrying every `LOCK_RETRY` up to `LOCK_WAIT_TIMEOUT`) then has exactly two
outcomes: immediate success if the lock resource does not exist, and
`TimeoutError` if it exists (no concurrent process ever releases it).

`World.failNames` models segment names whose `unlink` raises an OS error
other than `FileNotFoundError` (the only one `delete` catches); it lets the
error path of the maintenance sweep be exercised.
-/

/-- One shared-memory segment: fixed capacity, buffer of that length. -/
structure Segment where
  size : Nat
  data : List Nat
deriving DecidableEq, Repr

/-- The shared-memory host state. -/
structure World where
  segments : List (String × Segment)
  locks : List String
  failNames : List String
deriving DecidableEq, Repr

/-- Python exceptions raised by the modelled code. -/
inductive Err where
  /-- AssertionError -/
  | assertFail : Err
  /-- ValueError: value is too big for shared memory segment -/
  | valueTooLarge : Err
  /-- TimeoutError: timeout waiting for shared memory lock -/
  | lockTimeout : Err
  /-- RuntimeError: lock has already been acquired -/
  | alreadyHeld : Err
  /-- SystemError: invalid lock -/
  | invalidLock : Err
  /-- RuntimeError: lock has not been acquired -/
  | notHeld : Err
  /-- TypeError: index / expiry dict is corrupt (or undecodable payload) -/
  | corruptState : Err
  /-- KeyError: value cannot be stored in a intermediate dot level name -/
  | invalidName : Err
  /-- a modelled OS failure while unlinking a segment -/
  | osFailure : Err
deriving DecidableEq, Repr

instance decEqExcept {ε α : Type} [DecidableEq ε] [DecidableEq α] :
    DecidableEq (Except ε α)
  | .error e1, .error e2 =>
    if h : e1 = e2 then .isTrue (congrArg Except.error h)
    else .isFalse (fun hc => h (Except.error.inj hc))
  | .error _, .ok _ => .isFalse (fun hc => Except.noConfusion hc)
  | .ok _, .error _ => .isFalse (fun hc => Except.noConfusion hc)
  | .ok a1, .ok a2 =>
    if h : a1 = a2 then .isTrue (congrArg Except.ok h)
    else .isFalse (fun hc => h (Except.ok.inj hc))

/-- Set a key in an association list, preserving position (Python dict /
re-binding semantics); appends when absent. -/
def setAssoc {α : Type} : List (String × α) → String → α → List (String × α)
  | [], k, v => [(k, v)]
  | (k', v') :: rest, k, v =>
    if k' = k then (k, v) :: rest else (k', v') :: setAssoc rest k v

/-- Remove a key from an association list (first occurrence). -/
def delAssoc {α : Type} (l : List (String × α)) (k : String) : List (String × α) :=
  l.eraseP (fun kv => kv.1 == k)

def World.seg? (w : World) (name : String) : Option Segment :=
  w.segments.lookup name

def World.setSeg (w : World) (name : String) (s : Segment) : World :=
  { w with segments := setAssoc w.segments name s }

def World.delSeg (w : World) (name : String) : World :=
  { w with segments := delAssoc w.segments name }

/-- `SHARED_ITEM_NAME_MAX` (14 minus the lock suffix). -/
def SHARED_ITEM_NAME_MAX : Nat := 13

/-- One `DataStoreSharedMemItem` instance. -/
structure Handle where
  name : String
  attached : Bool
  lock : Option String
deriving DecidableEq, Repr

/-- `self._lock_name`: the lock resource name derived from the item name. -/
def Handle.lockName (h : Handle) : String := h.name ++ "L"

/-- `DataStoreSharedMemItem.__init__` + `open`: validate the name, then attach
to the named segment if it exists, otherwise create it zero-filled with the
requested size. -/
def itemNew (w : World) (name : String) (size : Nat) : World × Except Err Handle :=
  if name.data.length = 0 ∨ name.data.length > SHARED_ITEM_NAME_MAX then
    (w, .error .assertFail)
  else if size = 0 then (w, .error .assertFail)
  else
    match w.seg? name with
    | some _ => (w, .ok ⟨name, true, none⟩)
    | none =>
      (w.setSeg name ⟨size, List.replicate size 0⟩, .ok ⟨name, true, none⟩)

/-- `DataStoreSharedMemItem._acquire_lock`.  A handle already holding its own
lock is rejected (`RuntimeError`); inconsistent state is `SystemError`; if the
lock resource exists (held elsewhere and, in this sequential model, never
released) the bounded spin ends in `TimeoutError`; otherwise the resource is
created and ownership recorded. -/
def acquireLock (w : World) (h : Handle) : World × Handle × Option Err :=
  match h.lock with
  | some l =>
    if l = h.lockName then (w, h, some .alreadyHeld)
    else (w, h, some .invalidLock)
  | none =>
    if h.lockName ∈ w.locks then (w, h, some .lockTimeout)
    else ({ w with locks := h.lockName :: w.locks },
          { h with lock := some h.lockName }, none)

/-- `DataStoreSharedMemItem._release_lock`. -/
def releaseLock (w : World) (h : Handle) : World × Handle × Option Err :=
  match h.lock with
  | none => (w, h, some .notHeld)
  | some l =>
    if l ≠ h.lockName then (w, h, some .invalidLock)
    else ({ w with locks := w.locks.erase l }, { h with lock := none }, none)

/-- `DataStoreSharedMemItem.get`: the raw buffer, full length, no locking. -/
def itemGet (w : World) (h : Handle) : Except Err (List Nat) :=
  if !h.attached then .error .assertFail
  else
    match w.seg? h.name with
    | some seg => .ok seg.data
    | none => .error .assertFail

/-- `DataStoreSharedMemItem.set`: size check before anything else, then
acquire the lock, write the value zero-padded to capacity, release. -/
def itemSet (w : World) (h : Handle) (value : List Nat) :
    World × Handle × Option Err :=
  if !h.attached then (w, h, some .assertFail)
  else
    match w.seg? h.name with
    | none => (w, h, some .assertFail)
    | some seg =>
      if value.length > seg.size then (w, h, some .valueTooLarge)
      else
        match acquireLock w h with
        | (w1, h1, some e) => (w1, h1, some e)
        | (w1, h1, none) =>
          let w2 := w1.setSeg h.name
            ⟨seg.size, value ++ List.replicate (seg.size - value.length) 0⟩
          releaseLock w2 h1

/-- `DataStoreSharedMemItem.update`: acquire the lock, read the buffer, apply
the transform, then the size check, write zero-padded, release.  A transform
error (Python: the function raising, or returning non-bytes) and a too-large
result both propagate after acquisition and before release, so the lock stays
held.  (`acquireLock` does not change any segment, so reading the buffer
before or after it is equivalent; the source reads after.) -/
def itemUpdate (w : World) (h : Handle) (f : List Nat → Except Err (List Nat)) :
    World × Handle × Option Err :=
  if !h.attached then (w, h, some .assertFail)
  else
    match w.seg? h.name with
    | none => (w, h, some .assertFail)
    | some seg =>
      match acquireLock w h with
      | (w1, h1, some e) => (w1, h1, some e)
      | (w1, h1, none) =>
        match f seg.data with
        | .error e => (w1, h1, some e)
        | .ok nv =>
          if nv.length > seg.size then (w1, h1, some .valueTooLarge)
          else
            let w2 := w1.setSeg h.name
              ⟨seg.size, nv ++ List.replicate (seg.size - nv.length) 0⟩
            releaseLock w2 h1

/-- `DataStoreSharedMemItem.delete`: unlink and detach.  Only
`FileNotFoundError` is swallowed; a modelled OS failure (`failNames`)
propagates with the segment left in place. -/
def itemDelete (w : World) (h : Handle) : World × Handle × Option Err :=
  if !h.attached then (w, h, some .assertFail)
  else if h.name ∈ w.failNames then (w, h, some .osFailure)
  else (w.delSeg h.name, { h with attached := false }, none)

/-- `DataStoreSharedMemItem.close`: detach only. -/
def itemClose (h : Handle) : Handle × Option Err :=
  if !h.attached then (h, some .assertFail)
  else ({ h with attached := false }, none)

/-!
## Indexed store

`appdatastore/shared_mem.py` (`DataStoreSharedMem`) plus the pieces of
`appdatastore/base.py` it uses.  The store is modelled in its default
configuration relevant to the claims: `encrypt_index=False`, values stored
serialised (the codec above), `_manual_expiry=True` (set unconditionally by
the base constructor).
-/

/-- The per-instance configuration of a `DataStoreSharedMem`. -/
structure Store where
  name : String
  indexName : String
  expiryName : String
  dotNames : Bool
deriving DecidableEq, Repr

def DEFAULT_SHARED_MEM_NAME : String := "AppDS_SHM"

def DEFAULT_INDEX_SIZE : Nat := 16384

/-- `SHARED_MEM_NAME_MAX = SHARED_ITEM_NAME_MAX - len(INDEX_SUFFIX)`. -/
def SHARED_MEM_NAME_MAX : Nat := SHARED_ITEM_NAME_MAX - 1

/-- Python `str.find(p) == 0`, i.e. `startswith`. -/
def strStartsWith (s p : String) : Bool := p.data.isPrefixOf s.data

/-- `DataStoreBaseClass._check_dot_name`: accept `name` unless some other
existing key is a strict dot-ancestor or strict dot-descendant of it.  The
source scans `sorted(keys)` and returns `False` at the first conflict, which
computes the same boolean as scanning `keys` itself. -/
def check_dot_name (keys : List String) (name : String) : Bool :=
  keys.all (fun k =>
    k == name ||
      (!(strStartsWith name (k ++ ".")) && !(strStartsWith k (name ++ "."))))

/-- Modelled from the spec: `_filter_items`, called by `DataStoreSharedMem.list`
but defined nowhere under `src/` (`base.py` there only has the analogous
`_filter_keys`).  Per the spec it "returns all Index entries whose name starts
with `prefix` (empty prefix ⇒ all)". -/
def filterItems (items : List String) (pfx : String) : List String :=
  if pfx = "" then items else items.filter (fun e => strStartsWith e pfx)

/-- `DataStoreSharedMem._get_index`: read the index segment, decode, and
require a list (else `TypeError("index is corrupt")`).  Read-only. -/
def getIndex (w : World) (st : Store) : Except Err (List String) :=
  match itemGet w ⟨st.indexName, true, none⟩ with
  | .error e => .error e
  | .ok bs =>
    match decode bs with
    | some (.pyStrList l) => .ok l
    | some _ => .error .corruptState
    | none => .error .corruptState

/-- `DataStoreSharedMem._get_expiry_dict`: read the expiry segment, decode,
and require a dict (else `TypeError("expiry dict is corrupt")`). -/
def getExpiry (w : World) (st : Store) : Except Err (List (String × Nat)) :=
  match itemGet w ⟨st.expiryName, true, none⟩ with
  | .error e => .error e
  | .ok bs =>
    match decode bs with
    | some (.pyDict kvs) => .ok kvs
    | some _ => .error .corruptState
    | none => .error .corruptState

/-- `DataStoreSharedMem._add_to_index`: `update` on the index segment with the
append-if-absent transform. -/
def addToIndex (w : World) (st : Store) (name : String) : World × Option Err :=
  if name = "" then (w, some .assertFail)
  else
    let f : List Nat → Except Err (List Nat) := fun bs =>
      match decode bs with
      | some (.pyStrList l) =>
        .ok (encode (.pyStrList (if name ∈ l then l else l ++ [name])))
      | some _ => .error .corruptState
      | none => .error .corruptState
    match itemUpdate w ⟨st.indexName, true, none⟩ f with
    | (w1, _, e) => (w1, e)

/-- `DataStoreSharedMem._del_from_index`: `update` on the index segment with
the remove-if-present transform (Python `list.remove`: first occurrence). -/
def delFromIndex (w : World) (st : Store) (name : String) : World × Option Err :=
  if name = "" then (w, some .assertFail)
  else
    let f : List Nat → Except Err (List Nat) := fun bs =>
      match decode bs with
      | some (.pyStrList l) => .ok (encode (.pyStrList (l.erase name)))
      | some _ => .error .corruptState
      | none => .error .corruptState
    match itemUpdate w ⟨st.indexName, true, none⟩ f with
    | (w1, _, e) => (w1, e)

/-- `DataStoreSharedMem._add_to_expiry_dict`: `update` on the expiry segment,
binding `name` to the given timestamp. -/
def addToExpiry (w : World) (st : Store) (name : String) (ts : Nat) :
    World × Option Err :=
  if name = "" then (w, some .assertFail)
  else
    let f : List Nat → Except Err (List Nat) := fun bs =>
      match decode bs with
      | some (.pyDict kvs) => .ok (encode (.pyDict (setAssoc kvs name ts)))
      | some _ => .error .corruptState
      | none => .error .corruptState
    match itemUpdate w ⟨st.expiryName, true, none⟩ f with
    | (w1, _, e) => (w1, e)

/-- `DataStoreSharedMem._del_from_expiry_dict`: `update` on the expiry
segment, deleting `name` (a missing key is ignored). -/
def delFromExpiry (w : World) (st : Store) (name : String) : World × Option Err :=
  if name = "" then (w, some .assertFail)
  else
    let f : List Nat → Except Err (List Nat) := fun bs =>
      match decode bs with
      | some (.pyDict kvs) => .ok (encode (.pyDict (delAssoc kvs name)))
      | some _ => .error .corruptState
      | none => .error .corruptState
    match itemUpdate w ⟨st.expiryName, true, none⟩ f with
    | (w1, _, e) => (w1, e)

/-- One expired entry's cleanup inside `DataStoreSharedMem.maintenance`:
open a handle on the key's segment, delete it, remove the expiry dict entry,
remove the index entry.  Any exception propagates. -/
def expireOne (w : World) (st : Store) (key : String) : World × Option Err :=
  match itemNew w key 1 with
  | (w1, .error e) => (w1, some e)
  | (w1, .ok h) =>
    match itemDelete w1 h with
    | (w2, _, some e) => (w2, some e)
    | (w2, _, none) =>
      match delFromExpiry w2 st key with
      | (w3, some e) => (w3, some e)
      | (w3, none) => delFromIndex w3 st key

/-- The loop of `DataStoreSharedMem.maintenance` over the decoded snapshot of
the expiry dict: entries with `now > expiry` are cleaned up, the rest are
skipped (despite the comment in the source there is no early `break`). -/
def maintLoop (st : Store) (now : Nat) :
    List (String × Nat) → World → World × Option Err
  | [], w => (w, none)
  | (key, exp) :: rest, w =>
    if now > exp then
      match expireOne w st key with
      | (w1, some e) => (w1, some e)
      | (w1, none) => maintLoop st now rest w1
    else maintLoop st now rest w

/-- `DataStoreSharedMem.maintenance` (with `_manual_expiry` always true). -/
def maintenance (w : World) (st : Store) (now : Nat) : World × Option Err :=
  match getExpiry w st with
  | .error e => (w, some e)
  | .ok kvs => maintLoop st now kvs w

/-- `DataStoreSharedMem.has`: maintenance, then index membership. -/
def storeHas (w : World) (st : Store) (now : Nat) (name : String) :
    World × Except Err Bool :=
  match maintenance w st now with
  | (w1, some e) => (w1, .error e)
  | (w1, none) =>
    match getIndex w1 st with
    | .error e => (w1, .error e)
    | .ok idx => (w1, .ok (idx.contains name))

/-- `DataStoreSharedMem.get` (with `decrypt=False`): absent keys yield the
default (`none`); otherwise open the key's item, read, close, decode. -/
def storeGet (w : World) (st : Store) (now : Nat) (name : String) :
    World × Except Err (Option PyObj) :=
  match storeHas w st now name with
  | (w1, .error e) => (w1, .error e)
  | (w1, .ok false) => (w1, .ok none)
  | (w1, .ok true) =>
    match itemNew w1 name 1 with
    | (w2, .error e) => (w2, .error e)
    | (w2, .ok h) =>
      match itemGet w2 h with
      | .error e => (w2, .error e)
      | .ok bs =>
        match decode bs with
        | some v => (w2, .ok (some v))
        | none => (w2, .error .corruptState)

/-- `DataStoreSharedMem.set` (with `encrypt=False`): maintenance, dot-name
validation when enabled (`KeyError` on conflict), index update, then encode
and write the key's item, and finally the expiry entry when `timeout > 0`
(`timestamp(offset=timeout)` = `now + timeoutSecs`). -/
def storeSet (w : World) (st : Store) (now : Nat) (name : String)
    (value : PyObj) (timeoutSecs : Nat) : World × Option Err :=
  match maintenance w st now with
  | (w1, some e) => (w1, some e)
  | (w1, none) =>
    match (if st.dotNames then
             if name = "" then some (Err.assertFail)
             else
               match getIndex w1 st with
               | .error e => some e
               | .ok keys =>
                 if check_dot_name keys name then none else some .invalidName
           else none) with
    | some e => (w1, some e)
    | none =>
      match addToIndex w1 st name with
      | (w2, some e) => (w2, some e)
      | (w2, none) =>
        match itemNew w2 name 1 with
        | (w3, .error e) => (w3, some e)
        | (w3, .ok h) =>
          match itemSet w3 h (encode value) with
          | (w4, _, some e) => (w4, some e)
          | (w4, _, none) =>
            if timeoutSecs > 0 then addToExpiry w4 st name (now + timeoutSecs)
            else (w4, none)

/-- `DataStoreSharedMem.list`: maintenance, read the index, filter by the
prefix. -/
def storeList (w : World) (st : Store) (now : Nat) (pfx : String) :
    World × Except Err (List String) :=
  match maintenance w st now with
  | (w1, some e) => (w1, .error e)
  | (w1, none) =>
    match getIndex w1 st with
    | .error e => (w1, .error e)
    | .ok idx => (w1, .ok (filterItems idx pfx))

/-- `DataStoreSharedMem.__init__` (with `encrypt_index=False`): derive the
index/expiry segment names from the raw `name` argument, open each (attaching
if it already exists, otherwise creating it with
`max(index_size, DEFAULT_INDEX_SIZE)`), and unconditionally `set` the encoded
empty list / empty dict into them. -/
def storeInit (w : World) (name : String) (indexSize : Nat) (dotNames : Bool) :
    World × Except Err Store :=
  if name.data.length > SHARED_MEM_NAME_MAX then (w, .error .assertFail)
  else
    let st : Store :=
      ⟨if name = "" then DEFAULT_SHARED_MEM_NAME else name,
       name ++ "I", name ++ "E", dotNames⟩
    let isz := if indexSize > DEFAULT_INDEX_SIZE then indexSize
               else DEFAULT_INDEX_SIZE
    match itemNew w st.indexName isz with
    | (w1, .error e) => (w1, .error e)
    | (w1, .ok hI) =>
      match itemSet w1 hI (encode (.pyStrList [])) with
      | (w2, _, some e) => (w2, .error e)
      | (w2, _, none) =>
        match itemNew w2 st.expiryName isz with
        | (w3, .error e) => (w3, .error e)
        | (w3, .ok hE) =>
          match itemSet w3 hE (encode (.pyDict [])) with
          | (w4, _, some e) => (w4, .error e)
          | (w4, _, none) => (w4, .ok st)

/-!
## State predicates and sweep mirrors

Auxiliary definitions used to state the theorems: what it means for a
segment to hold an encoded value, the set of keys a sweep at a given time
cleans up, and pure mirrors of the sweep's effect on the index and the
expiry dict.
-/

/-- A name acceptable to `DataStoreSharedMemItem.__init__`. -/
abbrev validItemName (k : String) : Prop :=
  k ≠ "" ∧ k.data.length ≤ SHARED_ITEM_NAME_MAX

/-- The association list has no duplicate keys. -/
abbrev keysNodup {α : Type} (l : List (String × α)) : Prop :=
  (l.map Prod.fst).Nodup

/-- Segment `n` exists with capacity `sz` and holds exactly the zero-padded
encoding of `v`. -/
abbrev SegIs (w : World) (n : String) (sz : Nat) (v : PyObj) : Prop :=
  (encode v).length ≤ sz ∧
  w.seg? n = some ⟨sz, encode v ++ List.replicate (sz - (encode v).length) 0⟩

/-- The store's index segment decodes to `idx`. -/
abbrev IndexIs (w : World) (st : Store) (sz : Nat) (idx : List String) : Prop :=
  SegIs w st.indexName sz (.pyStrList idx)

/-- The store's expiry segment decodes to `kvs`. -/
abbrev ExpiryIs (w : World) (st : Store) (sz : Nat)
    (kvs : List (String × Nat)) : Prop :=
  SegIs w st.expiryName sz (.pyDict kvs)

/-- Overwrite segment `n` with the zero-padded encoding of `v`. -/
def writeSeg (w : World) (n : String) (sz : Nat) (v : PyObj) : World :=
  w.setSeg n ⟨sz, encode v ++ List.replicate (sz - (encode v).length) 0⟩

/-- The snapshot entries the sweep at time `now` cleans up. -/
def expiredKeys (now : Nat) (l : List (String × Nat)) : List String :=
  (l.filter (fun kv => now > kv.2)).map Prod.fst

/-- Pure mirror of the sweep's effect on the live expiry dict. -/
def sweepExpiry (now : Nat) :
    List (String × Nat) → List (String × Nat) → List (String × Nat)
  | [], kvs => kvs
  | (k, e) :: rest, kvs =>
    if now > e then sweepExpiry now rest (delAssoc kvs k)
    else sweepExpiry now rest kvs

/-- Pure mirror of the sweep's effect on the live index. -/
def sweepIndex (now : Nat) : List (String × Nat) → List String → List String
  | [], idx => idx
  | (k, e) :: rest, idx =>
    if now > e then sweepIndex now rest (idx.erase k)
    else sweepIndex now rest idx

/-- The outcome `update` maps a transform's result to before it writes:
the transform's own exception, or `ValueError` when the new value exceeds
the capacity; `none` when the write can proceed. -/
def updFail : Except Err (List Nat) → Nat → Option Err
  | .error e, _ => some e
  | .ok nv, sz => if nv.length > sz then some .valueTooLarge else none

/-!
## Concrete states used by the closed theorems

All closed (fully concrete) theorems below work on the store
`DataStoreSharedMem(name="N")`: its index segment is named `NI`, its expiry
segment `NE`.  Segment capacities are kept small so the closed statements
evaluate quickly; nothing in the modelled code depends on the capacities
beyond the fits-within-capacity checks.
-/

/-- `DataStoreSharedMem(name="N")` with `dot_names=False`. -/
def exStore : Store := ⟨"N", "NI", "NE", false⟩

/-- The zero-padded encoding of `v` in a buffer of capacity `sz`. -/
def padded (sz : Nat) (v : PyObj) : List Nat :=
  encode v ++ List.replicate (sz - (encode v).length) 0

/-- A freshly initialised store (empty index and expiry table) that also has
a pre-existing 8-byte segment for the key `k`. -/
def worldRoundTrip : World :=
  ⟨[("NI", ⟨16, padded 16 (.pyStrList [])⟩),
    ("NE", ⟨16, padded 16 (.pyDict [])⟩),
    ("k", ⟨8, List.replicate 8 0⟩)], [], []⟩

/-- A freshly initialised store (empty index and expiry table). -/
def worldFresh : World :=
  ⟨[("NI", ⟨16, padded 16 (.pyStrList [])⟩),
    ("NE", ⟨16, padded 16 (.pyDict [])⟩)], [], []⟩

/-- A store holding the key `a` whose expiry instant is 5. -/
def worldBoundary : World :=
  ⟨[("NI", ⟨32, padded 32 (.pyStrList ["a"])⟩),
    ("NE", ⟨32, padded 32 (.pyDict [("a", 5)])⟩),
    ("a", ⟨4, padded 4 (.pyNat 3)⟩)], [], []⟩

/-- A store holding the keys `a` and `b`, both long expired at time 10, where
unlinking `a`'s segment fails with an OS error. -/
def worldFailing : World :=
  ⟨[("NI", ⟨32, padded 32 (.pyStrList ["a", "b"])⟩),
    ("NE", ⟨32, padded 32 (.pyDict [("a", 1), ("b", 2)])⟩),
    ("a", ⟨4, padded 4 (.pyNat 3)⟩),
    ("b", ⟨4, padded 4 (.pyNat 4)⟩)], [], ["a"]⟩

/-- Pre-existing index and expiry segments populated with live keys, as left
behind by another process. -/
def worldPopulated : World :=
  ⟨[("NI", ⟨32, padded 32 (.pyStrList ["x", "y"])⟩),
    ("NE", ⟨32, padded 32 (.pyDict [("x", 3)])⟩)], [], []⟩

/-- A store holding the key `k` (segment capacity 8) with a recorded expiry
instant 9, and the key `b` expired at instant 3. -/
def worldStale : World :=
  ⟨[("NI", ⟨32, padded 32 (.pyStrList ["k", "b"])⟩),
    ("NE", ⟨32, padded 32 (.pyDict [("k", 9), ("b", 3)])⟩),
    ("k", ⟨8, padded 8 (.pyNat 3)⟩),
    ("b", ⟨4, padded 4 (.pyNat 4)⟩)], [], []⟩

/-- A one-byte item segment `a` with its payload set to `[7]`. -/
def worldOneItem : World := ⟨[("a", ⟨1, [7]⟩)], [], []⟩

/-!
## Lemmas about the codec
-/

theorem decodeStr_strBytes (s : String) : decodeStr (strBytes s) = s := by
  have h : ∀ l : List Char, (l.map Char.toNat).map Char.ofNat = l := by
    intro l
    induction l with
    | nil => rfl
    | cons c cs ih => simp [ih, Char.ofNat_toNat]
  show String.mk ((s.data.map Char.toNat).map Char.ofNat) = s
  rw [h]

theorem strBytes_length (s : String) : (strBytes s).length = s.data.length := by
  simp [strBytes]

theorem strChunks_length_ge (l : List String) :
    l.length ≤ ((l.map strChunk).flatten).length := by
  induction l with
  | nil => simp
  | cons s rest ih =>
    simp only [List.map_cons, List.flatten_cons, List.length_append,
      List.length_cons, strChunk]
    omega

theorem dictChunks_length_ge (kvs : List (String × Nat)) :
    kvs.length ≤ ((kvs.map dictChunk).flatten).length := by
  induction kvs with
  | nil => simp
  | cons kv rest ih =>
    simp only [List.map_cons, List.flatten_cons, List.length_append,
      List.length_cons, dictChunk]
    omega

theorem parseStrs_chunks (l : List String) (fuel : Nat) (hf : l.length ≤ fuel) :
    parseStrs fuel ((l.map strChunk).flatten) = some l := by
  induction l generalizing fuel with
  | nil => cases fuel <;> simp [parseStrs]
  | cons s rest ih =>
    cases fuel with
    | zero => simp at hf
    | succ f =>
    rw [List.map_cons, List.flatten_cons]
    rw [strChunk, List.cons_append, parseStrs]
    have hlen : (strBytes s).length = s.data.length := strBytes_length s
    have hle : s.data.length ≤ (strBytes s ++ (rest.map strChunk).flatten).length := by
      simp [hlen]
    rw [if_pos hle]
    have hdrop : (strBytes s ++ (rest.map strChunk).flatten).drop s.data.length
        = (rest.map strChunk).flatten := by
      rw [List.drop_append_of_le_length (by omega)]
      simp [hlen]
    have htake : (strBytes s ++ (rest.map strChunk).flatten).take s.data.length
        = strBytes s := by
      rw [List.take_append_of_le_length (by omega)]
      simp [hlen]
    rw [hdrop, ih f (by simp at hf; omega), htake, decodeStr_strBytes]

theorem parseKVs_chunks (kvs : List (String × Nat)) (fuel : Nat)
    (hf : kvs.length ≤ fuel) :
    parseKVs fuel ((kvs.map dictChunk).flatten) = some kvs := by
  induction kvs generalizing fuel with
  | nil => cases fuel <;> simp [parseKVs]
  | cons kv rest ih =>
    cases fuel with
    | zero => simp at hf
    | succ f =>
    rw [List.map_cons, List.flatten_cons]
    rw [dictChunk, List.cons_append, parseKVs]
    have hlen : (strBytes kv.1).length = kv.1.data.length := strBytes_length kv.1
    have harr : strBytes kv.1 ++ [kv.2] ++ (rest.map dictChunk).flatten
        = strBytes kv.1 ++ (kv.2 :: (rest.map dictChunk).flatten) := by
      simp
    rw [harr]
    have hle : kv.1.data.length + 1
        ≤ (strBytes kv.1 ++ (kv.2 :: (rest.map dictChunk).flatten)).length := by
      simp [hlen]
    rw [if_pos hle]
    have hdrop : (strBytes kv.1 ++ (kv.2 :: (rest.map dictChunk).flatten)).drop
        (kv.1.data.length + 1) = (rest.map dictChunk).flatten := by
      rw [← hlen, List.drop_append]
      simp
    have htake : (strBytes kv.1 ++ (kv.2 :: (rest.map dictChunk).flatten)).take
        kv.1.data.length = strBytes kv.1 := by
      rw [List.take_append_of_le_length (by omega)]
      simp [hlen]
    have hget : (strBytes kv.1 ++ (kv.2 :: (rest.map dictChunk).flatten)).getD
        kv.1.data.length 0 = kv.2 := by
      rw [List.getD_eq_getElem?_getD, List.getElem?_append_right (by omega)]
      simp [hlen]
    rw [hdrop, ih f (by simp at hf; omega), htake, hget, decodeStr_strBytes]

theorem parseBody_bodyEnc (v : PyObj) : parseBody (bodyEnc v) = some v := by
  cases v with
  | pyBytes bs => rfl
  | pyStr s => simp [bodyEnc, parseBody, decodeStr_strBytes]
  | pyNat n => rfl
  | pyStrList l =>
    have h := parseStrs_chunks l ((l.map strChunk).flatten).length
      (strChunks_length_ge l)
    simp only [bodyEnc, parseBody]
    rw [h]
    rfl
  | pyDict kvs =>
    have h := parseKVs_chunks kvs ((kvs.map dictChunk).flatten).length
      (dictChunks_length_ge kvs)
    simp only [bodyEnc, parseBody]
    rw [h]
    rfl

/-- The codec round-trips through any amount of trailing zero padding. -/
theorem decode_encode_pad (v : PyObj) (k : Nat) :
    decode (encode v ++ List.replicate k 0) = some v := by
  rw [encode, List.cons_append, decode]
  have hle : (bodyEnc v).length ≤ (bodyEnc v ++ List.replicate k 0).length := by
    simp
  rw [if_pos hle]
  have htake : (bodyEnc v ++ List.replicate k 0).take (bodyEnc v).length
      = bodyEnc v := by
    rw [List.take_append_of_le_length (by omega)]
    simp
  rw [htake, parseBody_bodyEnc]

theorem decode_encode (v : PyObj) : decode (encode v) = some v := by
  have h := decode_encode_pad v 0
  simpa using h

theorem sublist_flattenMap_length_le {α β : Type} (f : α → List β)
    {l₁ l₂ : List α} (h : l₁.Sublist l₂) :
    ((l₁.map f).flatten).length ≤ ((l₂.map f).flatten).length := by
  induction h with
  | slnil => simp
  | cons a _ ih =>
    simp only [List.map_cons, List.flatten_cons, List.length_append]
    omega
  | cons₂ a _ ih =>
    simp only [List.map_cons, List.flatten_cons, List.length_append]
    omega

theorem encode_length (v : PyObj) : (encode v).length = (bodyEnc v).length + 1 := by
  simp [encode]

theorem encode_strList_sublist_le {l₁ l₂ : List String} (h : l₁.Sublist l₂) :
    (encode (.pyStrList l₁)).length ≤ (encode (.pyStrList l₂)).length := by
  simp only [encode_length, bodyEnc, List.length_cons]
  have := sublist_flattenMap_length_le strChunk h
  omega

theorem encode_dict_sublist_le {l₁ l₂ : List (String × Nat)} (h : l₁.Sublist l₂) :
    (encode (.pyDict l₁)).length ≤ (encode (.pyDict l₂)).length := by
  simp only [encode_length, bodyEnc, List.length_cons]
  have := sublist_flattenMap_length_le dictChunk h
  omega

/-!
## Lemmas about association lists and world segments
-/

theorem lookup_cons_self {α : Type} (k : String) (v : α)
    (l : List (String × α)) : List.lookup k ((k, v) :: l) = some v := by
  simp [List.lookup]

theorem lookup_cons_ne {α : Type} (k k0 : String) (v : α)
    (l : List (String × α)) (h : k ≠ k0) :
    List.lookup k ((k0, v) :: l) = List.lookup k l := by
  have hb : (k == k0) = false := by simp [h]
  simp [List.lookup, hb]

theorem delAssoc_cons_self {α : Type} (k : String) (v : α)
    (l : List (String × α)) : delAssoc ((k, v) :: l) k = l := by
  simp [delAssoc, List.eraseP_cons]

theorem delAssoc_cons_ne {α : Type} (k k0 : String) (v : α)
    (l : List (String × α)) (h : k0 ≠ k) :
    delAssoc ((k0, v) :: l) k = (k0, v) :: delAssoc l k := by
  have hb : (k0 == k) = false := by simp [h]
  simp [delAssoc, List.eraseP_cons, hb]

theorem setAssoc_cons_self {α : Type} (k : String) (v v0 : α)
    (rest : List (String × α)) :
    setAssoc ((k, v0) :: rest) k v = (k, v) :: rest := by
  simp [setAssoc]

theorem setAssoc_cons_ne {α : Type} (k k0 : String) (v v0 : α)
    (rest : List (String × α)) (h : k0 ≠ k) :
    setAssoc ((k0, v0) :: rest) k v = (k0, v0) :: setAssoc rest k v := by
  simp [setAssoc, h]

theorem lookup_eq_none_of_not_mem_keys {α : Type} {l : List (String × α)}
    {k : String} (h : k ∉ l.map Prod.fst) : l.lookup k = none := by
  induction l with
  | nil => rfl
  | cons kv rest ih =>
    obtain ⟨k0, v0⟩ := kv
    simp only [List.map_cons, List.mem_cons] at h
    push_neg at h
    rw [lookup_cons_ne _ _ _ _ h.1]
    exact ih h.2

theorem lookup_setAssoc_self {α : Type} (l : List (String × α)) (k : String)
    (v : α) : (setAssoc l k v).lookup k = some v := by
  induction l with
  | nil => simp [setAssoc, List.lookup]
  | cons kv rest ih =>
    obtain ⟨k', v'⟩ := kv
    by_cases h : k' = k
    · subst h
      rw [setAssoc_cons_self]
      exact lookup_cons_self _ _ _
    · rw [setAssoc_cons_ne _ _ _ _ _ h]
      rw [lookup_cons_ne _ _ _ _ (Ne.symm h)]
      exact ih

theorem lookup_setAssoc_ne {α : Type} (l : List (String × α)) (k k' : String)
    (v : α) (h : k' ≠ k) : (setAssoc l k v).lookup k' = l.lookup k' := by
  induction l with
  | nil =>
    simp only [setAssoc]
    rw [lookup_cons_ne _ _ _ _ h]
  | cons kv rest ih =>
    obtain ⟨k0, v0⟩ := kv
    by_cases h0 : k0 = k
    · subst h0
      rw [setAssoc_cons_self]
      rw [lookup_cons_ne _ _ _ _ h, lookup_cons_ne _ _ _ _ h]
    · rw [setAssoc_cons_ne _ _ _ _ _ h0]
      by_cases h1 : k' = k0
      · subst h1
        rw [lookup_cons_self, lookup_cons_self]
      · rw [lookup_cons_ne _ _ _ _ h1, lookup_cons_ne _ _ _ _ h1]
        exact ih

theorem lookup_delAssoc_ne {α : Type} (l : List (String × α)) (k k' : String)
    (h : k' ≠ k) : (delAssoc l k).lookup k' = l.lookup k' := by
  induction l with
  | nil => rfl
  | cons kv rest ih =>
    obtain ⟨k0, v0⟩ := kv
    by_cases h0 : k0 = k
    · subst h0
      rw [delAssoc_cons_self, lookup_cons_ne _ _ _ _ h]
    · rw [delAssoc_cons_ne _ _ _ _ h0]
      by_cases h1 : k' = k0
      · subst h1
        rw [lookup_cons_self, lookup_cons_self]
      · rw [lookup_cons_ne _ _ _ _ h1, lookup_cons_ne _ _ _ _ h1]
        exact ih

theorem lookup_delAssoc_self {α : Type} (l : List (String × α)) (k : String)
    (h : keysNodup l) : (delAssoc l k).lookup k = none := by
  induction l with
  | nil => rfl
  | cons kv rest ih =>
    obtain ⟨k0, v0⟩ := kv
    simp only [keysNodup, List.map_cons, List.nodup_cons] at h
    by_cases h0 : k0 = k
    · subst h0
      rw [delAssoc_cons_self]
      exact lookup_eq_none_of_not_mem_keys h.1
    · rw [delAssoc_cons_ne _ _ _ _ h0, lookup_cons_ne _ _ _ _ (Ne.symm h0)]
      exact ih h.2

theorem mem_keys_setAssoc {α : Type} (l : List (String × α)) (k a : String)
    (v : α) (h : a ∈ (setAssoc l k v).map Prod.fst) :
    a = k ∨ a ∈ l.map Prod.fst := by
  induction l with
  | nil => simpa [setAssoc] using h
  | cons kv rest ih =>
    obtain ⟨k0, v0⟩ := kv
    by_cases h0 : k0 = k
    · subst h0
      simpa [setAssoc] using h
    · simp only [setAssoc, if_neg h0, List.map_cons, List.mem_cons] at h ⊢
      rcases h with h | h
      · right; left; exact h
      · rcases ih h with h | h
        · left; exact h
        · right; right; exact h

theorem keysNodup_setAssoc {α : Type} (l : List (String × α)) (k : String)
    (v : α) (h : keysNodup l) : keysNodup (setAssoc l k v) := by
  induction l with
  | nil => simp [setAssoc, keysNodup]
  | cons kv rest ih =>
    obtain ⟨k0, v0⟩ := kv
    simp only [keysNodup, List.map_cons, List.nodup_cons] at h
    by_cases h0 : k0 = k
    · subst h0
      simpa [setAssoc, keysNodup] using h
    · simp only [setAssoc, if_neg h0, keysNodup, List.map_cons, List.nodup_cons]
      refine ⟨?_, ih h.2⟩
      intro hmem
      rcases mem_keys_setAssoc rest k k0 v hmem with h1 | h1
      · exact h0 h1
      · exact h.1 h1

theorem delAssoc_sublist {α : Type} (l : List (String × α)) (k : String) :
    (delAssoc l k).Sublist l := List.eraseP_sublist l

theorem keysNodup_delAssoc {α : Type} (l : List (String × α)) (k : String)
    (h : keysNodup l) : keysNodup (delAssoc l k) :=
  List.Nodup.sublist (List.Sublist.map Prod.fst (delAssoc_sublist l k)) h

theorem seg?_setSeg_self (w : World) (n : String) (s : Segment) :
    (w.setSeg n s).seg? n = some s := lookup_setAssoc_self _ _ _

theorem seg?_setSeg_ne (w : World) (n n' : String) (s : Segment) (h : n' ≠ n) :
    (w.setSeg n s).seg? n' = w.seg? n' := lookup_setAssoc_ne _ _ _ _ h

theorem seg?_delSeg_self (w : World) (n : String) (h : keysNodup w.segments) :
    (w.delSeg n).seg? n = none := lookup_delAssoc_self _ _ h

theorem seg?_delSeg_ne (w : World) (n n' : String) (h : n' ≠ n) :
    (w.delSeg n).seg? n' = w.seg? n' := lookup_delAssoc_ne _ _ _ h

theorem seg?_writeSeg_self (w : World) (n : String) (sz : Nat) (v : PyObj) :
    (writeSeg w n sz v).seg? n
      = some ⟨sz, encode v ++ List.replicate (sz - (encode v).length) 0⟩ :=
  seg?_setSeg_self _ _ _

theorem seg?_writeSeg_ne (w : World) (n n' : String) (sz : Nat) (v : PyObj)
    (h : n' ≠ n) : (writeSeg w n sz v).seg? n' = w.seg? n' :=
  seg?_setSeg_ne _ _ _ _ h

/-!
## Lemmas about item operations
-/

theorem itemSet_ok {w : World} {n : String} {seg : Segment} {value : List Nat}
    (hseg : w.seg? n = some seg) (hlock : (n ++ "L") ∉ w.locks)
    (hsz : value.length ≤ seg.size) :
    itemSet w ⟨n, true, none⟩ value
      = (w.setSeg n
          ⟨seg.size, value ++ List.replicate (seg.size - value.length) 0⟩,
         ⟨n, true, none⟩, none) := by
  simp only [itemSet, hseg, Bool.not_true, Bool.false_eq_true, if_false,
    if_neg (Nat.not_lt.mpr hsz), acquireLock, Handle.lockName,
    if_neg hlock, releaseLock, ne_eq, not_true_eq_false, if_false,
    List.erase_cons_head, World.setSeg]

theorem itemUpdate_ok {w : World} {n : String} {seg : Segment}
    {f : List Nat → Except Err (List Nat)} {v : List Nat}
    (hseg : w.seg? n = some seg) (hlock : (n ++ "L") ∉ w.locks)
    (hf : f seg.data = .ok v) (hsz : v.length ≤ seg.size) :
    itemUpdate w ⟨n, true, none⟩ f
      = (w.setSeg n ⟨seg.size, v ++ List.replicate (seg.size - v.length) 0⟩,
         ⟨n, true, none⟩, none) := by
  simp only [itemUpdate, hseg, Bool.not_true, Bool.false_eq_true, if_false,
    acquireLock, Handle.lockName, if_neg hlock, hf,
    if_neg (Nat.not_lt.mpr hsz), releaseLock, ne_eq, not_true_eq_false,
    if_false, List.erase_cons_head, World.setSeg]

theorem itemNew_attached {w : World} {n : String} {seg : Segment} {sz : Nat}
    (hseg : w.seg? n = some seg) (hname : validItemName n) (hsz : sz ≠ 0) :
    itemNew w n sz = (w, .ok ⟨n, true, none⟩) := by
  obtain ⟨hne, hlen⟩ := hname
  have hne' : n.data.length ≠ 0 := by
    intro hc
    apply hne
    have : n.data = [] := List.eq_nil_of_length_eq_zero hc
    cases n
    simp_all
  simp only [itemNew, hseg]
  rw [if_neg (by omega), if_neg hsz]

theorem itemNew_fresh {w : World} {n : String} {sz : Nat}
    (hseg : w.seg? n = none) (hname : validItemName n) (hsz : sz ≠ 0) :
    itemNew w n sz
      = (w.setSeg n ⟨sz, List.replicate sz 0⟩, .ok ⟨n, true, none⟩) := by
  obtain ⟨hne, hlen⟩ := hname
  have hne' : n.data.length ≠ 0 := by
    intro hc
    apply hne
    have : n.data = [] := List.eq_nil_of_length_eq_zero hc
    cases n
    simp_all
  simp only [itemNew, hseg]
  rw [if_neg (by omega), if_neg hsz]

theorem itemDelete_ok {w : World} {n : String}
    (hfail : n ∉ w.failNames) :
    itemDelete w ⟨n, true, none⟩ = (w.delSeg n, ⟨n, false, none⟩, none) := by
  simp only [itemDelete, Bool.not_true, Bool.false_eq_true, if_false,
    if_neg hfail, World.delSeg]

/-!
## Lemmas about the store's bookkeeping operations
-/

theorem getIndex_of_IndexIs {w : World} {st : Store} {z : Nat}
    {idx : List String} (h : IndexIs w st z idx) :
    getIndex w st = .ok idx := by
  obtain ⟨hle, hseg⟩ := h
  simp [getIndex, itemGet, hseg, decode_encode_pad]

theorem getExpiry_of_ExpiryIs {w : World} {st : Store} {z : Nat}
    {kvs : List (String × Nat)} (h : ExpiryIs w st z kvs) :
    getExpiry w st = .ok kvs := by
  obtain ⟨hle, hseg⟩ := h
  simp [getExpiry, itemGet, hseg, decode_encode_pad]

theorem addToIndex_ok {w : World} {st : Store} {sz : Nat} {idx : List String}
    {name : String} (h : IndexIs w st sz idx)
    (hlock : (st.indexName ++ "L") ∉ w.locks) (hname : name ≠ "")
    (hfit : (encode (.pyStrList (if name ∈ idx then idx else idx ++ [name]))).length ≤ sz) :
    addToIndex w st name
      = (writeSeg w st.indexName sz
          (.pyStrList (if name ∈ idx then idx else idx ++ [name])), none) := by
  obtain ⟨hle, hseg⟩ := h
  have hupd := itemUpdate_ok (w := w) (n := st.indexName) hseg hlock
    (f := fun bs =>
      match decode bs with
      | some (.pyStrList l) =>
        .ok (encode (.pyStrList (if name ∈ l then l else l ++ [name])))
      | some _ => .error .corruptState
      | none => .error .corruptState)
    (v := encode (.pyStrList (if name ∈ idx then idx else idx ++ [name])))
    (by simp [decode_encode_pad]) hfit
  simp only [addToIndex, if_neg hname, hupd, writeSeg]

theorem delFromIndex_ok {w : World} {st : Store} {sz : Nat} {idx : List String}
    {name : String} (h : IndexIs w st sz idx)
    (hlock : (st.indexName ++ "L") ∉ w.locks) (hname : name ≠ "") :
    delFromIndex w st name
      = (writeSeg w st.indexName sz (.pyStrList (idx.erase name)), none) := by
  obtain ⟨hle, hseg⟩ := h
  have hfit : (encode (.pyStrList (idx.erase name))).length ≤ sz :=
    le_trans (encode_strList_sublist_le (idx.erase_sublist name)) hle
  have hupd := itemUpdate_ok (w := w) (n := st.indexName) hseg hlock
    (f := fun bs =>
      match decode bs with
      | some (.pyStrList l) => .ok (encode (.pyStrList (l.erase name)))
      | some _ => .error .corruptState
      | none => .error .corruptState)
    (v := encode (.pyStrList (idx.erase name)))
    (by simp [decode_encode_pad]) hfit
  simp only [delFromIndex, if_neg hname, hupd, writeSeg]

theorem addToExpiry_ok {w : World} {st : Store} {sz : Nat}
    {kvs : List (String × Nat)} {name : String} {ts : Nat}
    (h : ExpiryIs w st sz kvs) (hlock : (st.expiryName ++ "L") ∉ w.locks)
    (hname : name ≠ "")
    (hfit : (encode (.pyDict (setAssoc kvs name ts))).length ≤ sz) :
    addToExpiry w st name ts
      = (writeSeg w st.expiryName sz (.pyDict (setAssoc kvs name ts)), none) := by
  obtain ⟨hle, hseg⟩ := h
  have hupd := itemUpdate_ok (w := w) (n := st.expiryName) hseg hlock
    (f := fun bs =>
      match decode bs with
      | some (.pyDict l) => .ok (encode (.pyDict (setAssoc l name ts)))
      | some _ => .error .corruptState
      | none => .error .corruptState)
    (v := encode (.pyDict (setAssoc kvs name ts)))
    (by simp [decode_encode_pad]) hfit
  simp only [addToExpiry, if_neg hname, hupd, writeSeg]

theorem delFromExpiry_ok {w : World} {st : Store} {sz : Nat}
    {kvs : List (String × Nat)} {name : String}
    (h : ExpiryIs w st sz kvs) (hlock : (st.expiryName ++ "L") ∉ w.locks)
    (hname : name ≠ "") :
    delFromExpiry w st name
      = (writeSeg w st.expiryName sz (.pyDict (delAssoc kvs name)), none) := by
  obtain ⟨hle, hseg⟩ := h
  have hfit : (encode (.pyDict (delAssoc kvs name))).length ≤ sz :=
    le_trans (encode_dict_sublist_le (delAssoc_sublist kvs name)) hle
  have hupd := itemUpdate_ok (w := w) (n := st.expiryName) hseg hlock
    (f := fun bs =>
      match decode bs with
      | some (.pyDict l) => .ok (encode (.pyDict (delAssoc l name)))
      | some _ => .error .corruptState
      | none => .error .corruptState)
    (v := encode (.pyDict (delAssoc kvs name)))
    (by simp [decode_encode_pad]) hfit
  simp only [delFromExpiry, if_neg hname, hupd, writeSeg]

/-!
## Lemmas about the sweep mirrors
-/

theorem expiredKeys_nil (now : Nat) : expiredKeys now [] = [] := rfl

theorem expiredKeys_cons_pos (now : Nat) (k : String) (e : Nat)
    (rest : List (String × Nat)) (h : now > e) :
    expiredKeys now ((k, e) :: rest) = k :: expiredKeys now rest := by
  simp [expiredKeys, List.filter_cons, h]

theorem expiredKeys_cons_neg (now : Nat) (k : String) (e : Nat)
    (rest : List (String × Nat)) (h : ¬ now > e) :
    expiredKeys now ((k, e) :: rest) = expiredKeys now rest := by
  simp [expiredKeys, List.filter_cons, h]

theorem mem_expiredKeys {now : Nat} {l : List (String × Nat)} {k : String} :
    k ∈ expiredKeys now l ↔ ∃ e, (k, e) ∈ l ∧ now > e := by
  simp only [expiredKeys, List.mem_map, List.mem_filter]
  constructor
  · rintro ⟨⟨k0, e0⟩, ⟨hmem, hexp⟩, hk⟩
    exact ⟨e0, by simpa [← hk] using hmem, by simpa using hexp⟩
  · rintro ⟨e, hmem, hexp⟩
    exact ⟨(k, e), ⟨hmem, by simpa using hexp⟩, rfl⟩

theorem lookup_ne_none_of_mem {α : Type} {l : List (String × α)}
    {k : String} {v : α} (hm : (k, v) ∈ l) : l.lookup k ≠ none := by
  induction l with
  | nil => simp at hm
  | cons kv rest ih =>
    obtain ⟨k1, v1⟩ := kv
    by_cases h4 : k = k1
    · subst h4
      rw [lookup_cons_self]
      simp
    · rw [lookup_cons_ne _ _ _ _ h4]
      rcases List.mem_cons.mp hm with h1 | h1
      · exact absurd (congrArg Prod.fst h1) h4
      · exact ih h1

theorem not_mem_keys_delAssoc_self {α : Type} (l : List (String × α))
    (k : String) (h : keysNodup l) : k ∉ (delAssoc l k).map Prod.fst := by
  intro hmem
  obtain ⟨⟨k0, v0⟩, hm, hk⟩ := List.mem_map.mp hmem
  have hk0 : k0 = k := hk
  subst hk0
  exact lookup_ne_none_of_mem hm (lookup_delAssoc_self l k0 h)

theorem mem_delAssoc_of_ne {α : Type} {l : List (String × α)}
    {kv : String × α} {k : String} (hmem : kv ∈ l) (hne : kv.1 ≠ k) :
    kv ∈ delAssoc l k := by
  induction l with
  | nil => simp at hmem
  | cons kv0 rest ih =>
    obtain ⟨k0, v0⟩ := kv0
    by_cases h0 : k0 = k
    · subst h0
      rw [delAssoc_cons_self]
      rcases List.mem_cons.mp hmem with h1 | h1
      · exact absurd (by rw [h1]) hne
      · exact h1
    · rw [delAssoc_cons_ne _ _ _ _ h0]
      rcases List.mem_cons.mp hmem with h1 | h1
      · exact h1 ▸ List.mem_cons_self _ _
      · exact List.mem_cons_of_mem _ (ih h1)

theorem mem_delAssoc_iff {α : Type} {l : List (String × α)}
    {kv : String × α} {k : String} (h : keysNodup l) :
    kv ∈ delAssoc l k ↔ kv ∈ l ∧ kv.1 ≠ k := by
  constructor
  · intro hmem
    refine ⟨(delAssoc_sublist l k).mem hmem, ?_⟩
    intro hk
    apply not_mem_keys_delAssoc_self l k h
    exact List.mem_map.mpr ⟨kv, hmem, hk⟩
  · rintro ⟨hmem, hne⟩
    exact mem_delAssoc_of_ne hmem hne

theorem mem_sweepExpiry {now : Nat} {l kvs : List (String × Nat)}
    {kv : String × Nat} (h : keysNodup kvs) :
    kv ∈ sweepExpiry now l kvs ↔ kv ∈ kvs ∧ kv.1 ∉ expiredKeys now l := by
  induction l generalizing kvs with
  | nil => simp [sweepExpiry, expiredKeys]
  | cons kv0 rest ih =>
    obtain ⟨k0, e0⟩ := kv0
    by_cases h0 : now > e0
    · rw [show sweepExpiry now ((k0, e0) :: rest) kvs
          = sweepExpiry now rest (delAssoc kvs k0) by simp [sweepExpiry, h0]]
      rw [ih (keysNodup_delAssoc kvs k0 h), mem_delAssoc_iff h,
        expiredKeys_cons_pos now k0 e0 rest h0]
      simp only [List.mem_cons]
      constructor
      · rintro ⟨⟨h1, h2⟩, h3⟩
        exact ⟨h1, by push_neg; exact ⟨h2, h3⟩⟩
      · rintro ⟨h1, h2⟩
        push_neg at h2
        exact ⟨⟨h1, h2.1⟩, h2.2⟩
    · rw [show sweepExpiry now ((k0, e0) :: rest) kvs
          = sweepExpiry now rest kvs by simp [sweepExpiry, h0]]
      rw [ih h, expiredKeys_cons_neg now k0 e0 rest h0]

theorem keysNodup_sweepExpiry {now : Nat} (l : List (String × Nat))
    {kvs : List (String × Nat)} (h : keysNodup kvs) :
    keysNodup (sweepExpiry now l kvs) := by
  induction l generalizing kvs with
  | nil => exact h
  | cons kv0 rest ih =>
    obtain ⟨k0, e0⟩ := kv0
    by_cases h0 : now > e0
    · rw [show sweepExpiry now ((k0, e0) :: rest) kvs
          = sweepExpiry now rest (delAssoc kvs k0) by simp [sweepExpiry, h0]]
      exact ih (keysNodup_delAssoc kvs k0 h)
    · rw [show sweepExpiry now ((k0, e0) :: rest) kvs
          = sweepExpiry now rest kvs by simp [sweepExpiry, h0]]
      exact ih h

theorem mem_sweepIndex {now : Nat} {l : List (String × Nat)}
    {idx : List String} {n : String} (h : idx.Nodup) :
    n ∈ sweepIndex now l idx ↔ n ∈ idx ∧ n ∉ expiredKeys now l := by
  induction l generalizing idx with
  | nil => simp [sweepIndex, expiredKeys]
  | cons kv0 rest ih =>
    obtain ⟨k0, e0⟩ := kv0
    by_cases h0 : now > e0
    · rw [show sweepIndex now ((k0, e0) :: rest) idx
          = sweepIndex now rest (idx.erase k0) by simp [sweepIndex, h0]]
      rw [ih (h.erase k0), h.mem_erase_iff,
        expiredKeys_cons_pos now k0 e0 rest h0]
      simp only [List.mem_cons]
      constructor
      · rintro ⟨⟨h1, h2⟩, h3⟩
        exact ⟨h2, by push_neg; exact ⟨h1, h3⟩⟩
      · rintro ⟨h1, h2⟩
        push_neg at h2
        exact ⟨⟨h2.1, h1⟩, h2.2⟩
    · rw [show sweepIndex now ((k0, e0) :: rest) idx
          = sweepIndex now rest idx by simp [sweepIndex, h0]]
      rw [ih h, expiredKeys_cons_neg now k0 e0 rest h0]

theorem nodup_sweepIndex {now : Nat} (l : List (String × Nat))
    {idx : List String} (h : idx.Nodup) : (sweepIndex now l idx).Nodup := by
  induction l generalizing idx with
  | nil => exact h
  | cons kv0 rest ih =>
    obtain ⟨k0, e0⟩ := kv0
    by_cases h0 : now > e0
    · rw [show sweepIndex now ((k0, e0) :: rest) idx
          = sweepIndex now rest (idx.erase k0) by simp [sweepIndex, h0]]
      exact ih (h.erase k0)
    · rw [show sweepIndex now ((k0, e0) :: rest) idx
          = sweepIndex now rest idx by simp [sweepIndex, h0]]
      exact ih h

/-- Every entry surviving a self-sweep (snapshot = the dict itself) is
unexpired. -/
theorem sweepExpiry_self_not_expired {now : Nat} {kvs : List (String × Nat)}
    (h : keysNodup kvs) :
    ∀ kv ∈ sweepExpiry now kvs kvs, ¬ now > kv.2 := by
  intro kv hmem
  rw [mem_sweepExpiry h] at hmem
  intro hexp
  exact hmem.2 (mem_expiredKeys.mpr ⟨kv.2, hmem.1, hexp⟩)

/-!
## The maintenance sweep
-/

theorem setSeg_locks (w : World) (n : String) (s : Segment) :
    (w.setSeg n s).locks = w.locks := rfl

theorem setSeg_failNames (w : World) (n : String) (s : Segment) :
    (w.setSeg n s).failNames = w.failNames := rfl

theorem delSeg_locks (w : World) (n : String) :
    (w.delSeg n).locks = w.locks := rfl

theorem delSeg_failNames (w : World) (n : String) :
    (w.delSeg n).failNames = w.failNames := rfl

theorem writeSeg_locks (w : World) (n : String) (sz : Nat) (v : PyObj) :
    (writeSeg w n sz v).locks = w.locks := rfl

theorem writeSeg_failNames (w : World) (n : String) (sz : Nat) (v : PyObj) :
    (writeSeg w n sz v).failNames = w.failNames := rfl

theorem keysNodup_setSeg {w : World} (n : String) (s : Segment)
    (h : keysNodup w.segments) : keysNodup (w.setSeg n s).segments :=
  keysNodup_setAssoc _ _ _ h

theorem keysNodup_delSeg {w : World} (n : String)
    (h : keysNodup w.segments) : keysNodup (w.delSeg n).segments :=
  keysNodup_delAssoc _ _ h

theorem keysNodup_writeSeg {w : World} (n : String) (sz : Nat) (v : PyObj)
    (h : keysNodup w.segments) : keysNodup (writeSeg w n sz v).segments :=
  keysNodup_setSeg _ _ h

/-- Cleaning up one expired key succeeds and has exactly the intended
effect, under the state invariants. -/
theorem expireOne_ok {w : World} {st : Store} {szI szE : Nat}
    {idx : List String} {kvs : List (String × Nat)} {k : String}
    (hidx : IndexIs w st szI idx) (hexp : ExpiryIs w st szE kvs)
    (hIE : st.indexName ≠ st.expiryName)
    (hlI : (st.indexName ++ "L") ∉ w.locks)
    (hlE : (st.expiryName ++ "L") ∉ w.locks)
    (hnodupW : keysNodup w.segments)
    (hk : validItemName k) (hkI : k ≠ st.indexName) (hkE : k ≠ st.expiryName)
    (hkF : k ∉ w.failNames) :
    ∃ w3, expireOne w st k = (w3, none) ∧
      w3.locks = w.locks ∧ w3.failNames = w.failNames ∧
      IndexIs w3 st szI (idx.erase k) ∧
      ExpiryIs w3 st szE (delAssoc kvs k) ∧
      keysNodup w3.segments ∧ w3.seg? k = none ∧
      (∀ n, n ≠ k → n ≠ st.indexName → n ≠ st.expiryName →
        w3.seg? n = w.seg? n) := by
  -- state after opening the handle and destroying the key's segment
  obtain ⟨wa, wd, hnew, hdel, hdSeg, hdSegNe, hdNodup, hdLocks, hdFail⟩ :
      ∃ wa wd, itemNew w k 1 = (wa, .ok ⟨k, true, none⟩) ∧
        itemDelete wa ⟨k, true, none⟩ = (wd, ⟨k, false, none⟩, none) ∧
        wd.seg? k = none ∧
        (∀ n, n ≠ k → wd.seg? n = w.seg? n) ∧
        keysNodup wd.segments ∧ wd.locks = w.locks ∧
        wd.failNames = w.failNames := by
    cases hseg : w.seg? k with
    | some seg =>
      refine ⟨w, w.delSeg k, itemNew_attached hseg hk Nat.one_ne_zero,
        itemDelete_ok hkF, ?_, ?_, ?_, rfl, rfl⟩
      · exact seg?_delSeg_self w k hnodupW
      · intro n hn'
        exact seg?_delSeg_ne w k n hn'
      · exact keysNodup_delSeg _ hnodupW
    | none =>
      refine ⟨w.setSeg k ⟨1, List.replicate 1 0⟩,
        (w.setSeg k ⟨1, List.replicate 1 0⟩).delSeg k,
        itemNew_fresh hseg hk Nat.one_ne_zero,
        itemDelete_ok (by simpa [setSeg_failNames] using hkF),
        ?_, ?_, ?_, rfl, rfl⟩
      · exact seg?_delSeg_self _ k (keysNodup_setSeg _ _ hnodupW)
      · intro n hn'
        rw [seg?_delSeg_ne _ k n hn', seg?_setSeg_ne _ k n _ hn']
      · exact keysNodup_delSeg _ (keysNodup_setSeg _ _ hnodupW)
  -- the two bookkeeping removals
  have hidxD : IndexIs wd st szI idx := by
    refine ⟨hidx.1, ?_⟩
    rw [hdSegNe st.indexName (Ne.symm hkI)]
    exact hidx.2
  have hexpD : ExpiryIs wd st szE kvs := by
    refine ⟨hexp.1, ?_⟩
    rw [hdSegNe st.expiryName (Ne.symm hkE)]
    exact hexp.2
  have hdelE := delFromExpiry_ok hexpD (by rw [hdLocks]; exact hlE) hk.1
  set we := writeSeg wd st.expiryName szE (.pyDict (delAssoc kvs k)) with hwe
  have hidxE : IndexIs we st szI idx := by
    refine ⟨hidx.1, ?_⟩
    rw [hwe, seg?_writeSeg_ne _ _ _ _ _ hIE]
    exact hidxD.2
  have hdelI := delFromIndex_ok hidxE
    (by rw [hwe, writeSeg_locks, hdLocks]; exact hlI) hk.1
  set w3 := writeSeg we st.indexName szI (.pyStrList (idx.erase k)) with hw3
  refine ⟨w3, ?_, ?_, ?_, ?_, ?_, ?_, ?_, ?_⟩
  · -- the computation chains through
    simp only [expireOne, hnew, hdel, hdelE, hdelI]
  · rw [hw3, writeSeg_locks, hwe, writeSeg_locks, hdLocks]
  · rw [hw3, writeSeg_failNames, hwe, writeSeg_failNames, hdFail]
  · exact ⟨le_trans (encode_strList_sublist_le (idx.erase_sublist k)) hidx.1,
      by rw [hw3]; exact seg?_writeSeg_self _ _ _ _⟩
  · refine ⟨le_trans (encode_dict_sublist_le (delAssoc_sublist kvs k)) hexp.1, ?_⟩
    rw [hw3, seg?_writeSeg_ne _ _ _ _ _ (Ne.symm hIE), hwe]
    exact seg?_writeSeg_self _ _ _ _
  · exact keysNodup_writeSeg _ _ _ (keysNodup_writeSeg _ _ _ hdNodup)
  · rw [hw3, seg?_writeSeg_ne _ _ _ _ _ hkI, hwe,
      seg?_writeSeg_ne _ _ _ _ _ hkE]
    exact hdSeg
  · intro n hnk hnI hnE
    rw [hw3, seg?_writeSeg_ne _ _ _ _ _ hnI, hwe,
      seg?_writeSeg_ne _ _ _ _ _ hnE]
    exact hdSegNe n hnk

/-- The sweep loop over a snapshot: success and exact effect, under the
state invariants.  `l` is the decoded snapshot being iterated; `idx` and
`kvs` are the live contents of the index and expiry segments. -/
theorem maintLoop_spec {st : Store} {now szI szE : Nat}
    (hIE : st.indexName ≠ st.expiryName) :
    ∀ (l : List (String × Nat)) (w : World) (idx : List String)
      (kvs : List (String × Nat)),
    IndexIs w st szI idx → ExpiryIs w st szE kvs →
    (st.indexName ++ "L") ∉ w.locks → (st.expiryName ++ "L") ∉ w.locks →
    keysNodup w.segments →
    (∀ kv ∈ l, now > kv.2 → validItemName kv.1 ∧ kv.1 ∉ w.failNames ∧
       kv.1 ≠ st.indexName ∧ kv.1 ≠ st.expiryName) →
    ∃ w', maintLoop st now l w = (w', none) ∧
      w'.locks = w.locks ∧ w'.failNames = w.failNames ∧
      IndexIs w' st szI (sweepIndex now l idx) ∧
      ExpiryIs w' st szE (sweepExpiry now l kvs) ∧
      keysNodup w'.segments ∧
      (∀ n, n ≠ st.indexName → n ≠ st.expiryName →
        w'.seg? n = if n ∈ expiredKeys now l then none else w.seg? n) := by
  intro l
  induction l with
  | nil =>
    intro w idx kvs hidx hexp hlI hlE hnodupW hl
    exact ⟨w, rfl, rfl, rfl, hidx, hexp, hnodupW,
      fun n _ _ => by simp [expiredKeys_nil]⟩
  | cons kv0 rest ih =>
    intro w idx kvs hidx hexp hlI hlE hnodupW hl
    obtain ⟨k0, e0⟩ := kv0
    by_cases h0 : now > e0
    · have hk := hl (k0, e0) (List.mem_cons_self _ _) h0
      obtain ⟨w3, hone, hlocks3, hfail3, hidx3, hexp3, hnodup3, hsegk, hsegne⟩ :=
        expireOne_ok hidx hexp hIE hlI hlE hnodupW hk.1 hk.2.2.1 hk.2.2.2 hk.2.1
      obtain ⟨w', hloop, hlocks', hfail', hidx', hexp', hnodup', hseg'⟩ :=
        ih w3 (idx.erase k0) (delAssoc kvs k0) hidx3 hexp3
          (by rw [hlocks3]; exact hlI) (by rw [hlocks3]; exact hlE) hnodup3
          (fun kv hm he => by
            have hx := hl kv (List.mem_cons_of_mem _ hm) he
            exact ⟨hx.1, by rw [hfail3]; exact hx.2.1, hx.2.2⟩)
      refine ⟨w', ?_, by rw [hlocks', hlocks3], by rw [hfail', hfail3],
        ?_, ?_, hnodup', ?_⟩
      · simp only [maintLoop, if_pos h0, hone, hloop]
      · rw [show sweepIndex now ((k0, e0) :: rest) idx
            = sweepIndex now rest (idx.erase k0) by simp [sweepIndex, h0]]
        exact hidx'
      · rw [show sweepExpiry now ((k0, e0) :: rest) kvs
            = sweepExpiry now rest (delAssoc kvs k0) by simp [sweepExpiry, h0]]
        exact hexp'
      · intro n hnI hnE
        rw [hseg' n hnI hnE, expiredKeys_cons_pos now k0 e0 rest h0]
        by_cases hn : n ∈ expiredKeys now rest
        · rw [if_pos hn, if_pos (List.mem_cons_of_mem _ hn)]
        · rw [if_neg hn]
          by_cases hnk : n = k0
          · subst hnk
            rw [if_pos (List.mem_cons_self _ _), hsegk]
          · rw [if_neg (by simp [hnk, hn]), hsegne n hnk hnI hnE]
    · obtain ⟨w', hloop, hlocks', hfail', hidx', hexp', hnodup', hseg'⟩ :=
        ih w idx kvs hidx hexp hlI hlE hnodupW
          (fun kv hm he => hl kv (List.mem_cons_of_mem _ hm) he)
      refine ⟨w', ?_, hlocks', hfail', ?_, ?_, hnodup', ?_⟩
      · simp only [maintLoop, if_neg h0, hloop]
      · rw [show sweepIndex now ((k0, e0) :: rest) idx
            = sweepIndex now rest idx by simp [sweepIndex, h0]]
        exact hidx'
      · rw [show sweepExpiry now ((k0, e0) :: rest) kvs
            = sweepExpiry now rest kvs by simp [sweepExpiry, h0]]
        exact hexp'
      · intro n hnI hnE
        rw [hseg' n hnI hnE, expiredKeys_cons_neg now k0 e0 rest h0]

/-- `maintenance` under the state invariants: success and exact effect. -/
theorem maintenance_spec {w : World} {st : Store} {t szI szE : Nat}
    {idx : List String} {kvs : List (String × Nat)}
    (hidx : IndexIs w st szI idx) (hexp : ExpiryIs w st szE kvs)
    (hIE : st.indexName ≠ st.expiryName)
    (hlI : (st.indexName ++ "L") ∉ w.locks)
    (hlE : (st.expiryName ++ "L") ∉ w.locks)
    (hnodupW : keysNodup w.segments)
    (hl : ∀ kv ∈ kvs, t > kv.2 → validItemName kv.1 ∧ kv.1 ∉ w.failNames ∧
       kv.1 ≠ st.indexName ∧ kv.1 ≠ st.expiryName) :
    ∃ w', maintenance w st t = (w', none) ∧
      w'.locks = w.locks ∧ w'.failNames = w.failNames ∧
      IndexIs w' st szI (sweepIndex t kvs idx) ∧
      ExpiryIs w' st szE (sweepExpiry t kvs kvs) ∧
      keysNodup w'.segments ∧
      (∀ n, n ≠ st.indexName → n ≠ st.expiryName →
        w'.seg? n = if n ∈ expiredKeys t kvs then none else w.seg? n) := by
  obtain ⟨w', hloop, hrest⟩ :=
    maintLoop_spec hIE kvs w idx kvs hidx hexp hlI hlE hnodupW hl
  exact ⟨w', by simp only [maintenance, getExpiry_of_ExpiryIs hexp, hloop],
    hrest⟩

/-- A sweep over a snapshot with no expired entry leaves the world
untouched. -/
theorem maintLoop_skip {st : Store} {now : Nat} {l : List (String × Nat)}
    (w : World) (h : ∀ kv ∈ l, ¬ now > kv.2) :
    maintLoop st now l w = (w, none) := by
  induction l with
  | nil => rfl
  | cons kv0 rest ih =>
    obtain ⟨k0, e0⟩ := kv0
    have h0 : ¬ now > e0 := h (k0, e0) (List.mem_cons_self _ _)
    simp only [maintLoop, if_neg h0]
    exact ih (fun kv hm => h kv (List.mem_cons_of_mem _ hm))

/-- `maintenance` on a store whose expiry table has no expired entry is a
no-op. -/
theorem maintenance_noop {w : World} {st : Store} {now szE : Nat}
    {kvs : List (String × Nat)} (hexp : ExpiryIs w st szE kvs)
    (h : ∀ kv ∈ kvs, ¬ now > kv.2) :
    maintenance w st now = (w, none) := by
  simp only [maintenance, getExpiry_of_ExpiryIs hexp, maintLoop_skip w h]

/-- Skipped (unexpired) snapshot entries at the front of the sweep loop
change nothing. -/
theorem maintLoop_append_skip {st : Store} {now : Nat}
    (pre rest : List (String × Nat)) (w : World)
    (h : ∀ kv ∈ pre, ¬ now > kv.2) :
    maintLoop st now (pre ++ rest) w = maintLoop st now rest w := by
  induction pre with
  | nil => rfl
  | cons kv0 tl ih =>
    obtain ⟨k0, e0⟩ := kv0
    have h0 : ¬ now > e0 := h (k0, e0) (List.mem_cons_self _ _)
    simp only [List.cons_append, maintLoop, if_neg h0]
    exact ih (fun kv hm => h kv (List.mem_cons_of_mem _ hm))

/-!
## Inversion lemmas and small helpers
-/

theorem itemNew_ok_inv {w : World} {n : String} {sz : Nat} {w1 : World}
    {h : Handle} (heq : itemNew w n sz = (w1, .ok h)) :
    h = ⟨n, true, none⟩ ∧
    (∃ seg, w1.seg? n = some seg) ∧
    (∀ m, m ≠ n → w1.seg? m = w.seg? m) ∧
    w1.locks = w.locks ∧ w1.failNames = w.failNames := by
  unfold itemNew at heq
  split at heq
  · cases heq
  · split at heq
    · cases heq
    · split at heq
      · rename_i seg hseg
        cases heq
        exact ⟨rfl, ⟨seg, hseg⟩, fun m _ => rfl, rfl, rfl⟩
      · rename_i hseg
        cases heq
        refine ⟨rfl, ⟨_, seg?_setSeg_self _ _ _⟩, ?_, rfl, rfl⟩
        intro m hm
        exact seg?_setSeg_ne _ _ _ _ hm

theorem itemSet_ok_inv {w : World} {n : String} {value : List Nat}
    {w1 : World} {h1 : Handle}
    (heq : itemSet w ⟨n, true, none⟩ value = (w1, h1, none)) :
    ∃ seg, w.seg? n = some seg ∧ value.length ≤ seg.size ∧
      (n ++ "L") ∉ w.locks ∧
      w1 = w.setSeg n
        ⟨seg.size, value ++ List.replicate (seg.size - value.length) 0⟩ := by
  cases hseg : w.seg? n with
  | none =>
    rw [itemSet] at heq
    simp [hseg] at heq
  | some seg =>
    by_cases hsz : value.length > seg.size
    · rw [itemSet] at heq
      simp [hseg, hsz] at heq
    · by_cases hlock : (n ++ "L") ∈ w.locks
      · rw [itemSet, acquireLock] at heq
        simp [hseg, hsz, Handle.lockName, hlock] at heq
      · rw [itemSet_ok hseg hlock (by omega)] at heq
        have hw : _ = w1 := congrArg Prod.fst heq
        exact ⟨seg, rfl, by omega, hlock, hw.symm⟩

theorem string_append_I_ne_append_E (s : String) : s ++ "I" ≠ s ++ "E" := by
  intro h
  have h2 := congrArg String.data h
  simp [String.data_append] at h2

theorem keysNodup_eq_of_mem {α : Type} {l : List (String × α)} {k : String}
    {a b : α} (h : keysNodup l) (ha : (k, a) ∈ l) (hb : (k, b) ∈ l) :
    a = b := by
  induction l with
  | nil => simp at ha
  | cons kv rest ih =>
    obtain ⟨k0, v0⟩ := kv
    simp only [keysNodup, List.map_cons, List.nodup_cons] at h
    rcases List.mem_cons.mp ha with h1 | h1 <;>
      rcases List.mem_cons.mp hb with h2 | h2
    · cases h1; cases h2; rfl
    · cases h1
      exact absurd (List.mem_map.mpr ⟨_, h2, rfl⟩) h.1
    · cases h2
      exact absurd (List.mem_map.mpr ⟨_, h1, rfl⟩) h.1
    · exact ih h.2 h1 h2

theorem sweepIndex_sublist (now : Nat) (l : List (String × Nat)) :
    ∀ idx : List String, (sweepIndex now l idx).Sublist idx := by
  induction l with
  | nil => exact fun idx => List.Sublist.refl idx
  | cons kv0 rest ih =>
    intro idx
    obtain ⟨k0, e0⟩ := kv0
    by_cases h0 : now > e0
    · rw [show sweepIndex now ((k0, e0) :: rest) idx
          = sweepIndex now rest (idx.erase k0) by simp [sweepIndex, h0]]
      exact (ih (idx.erase k0)).trans (idx.erase_sublist k0)
    · rw [show sweepIndex now ((k0, e0) :: rest) idx
          = sweepIndex now rest idx by simp [sweepIndex, h0]]
      exact ih idx

/-- `DataStoreSharedMem.set(name, value, timeout=0)` succeeds and has
exactly the intended effect, under the store invariants, for an ordinary key
name whose segment exists with enough capacity and is not about to expire.
`idx2` abbreviates the post-maintenance index with `name` appended if absent.
-/
theorem storeSet_ok (w : World) (st : Store) (now szI szE : Nat)
    (idx : List String) (kvs : List (String × Nat)) (name : String)
    (v : PyObj) (segk : Segment)
    (hidx : IndexIs w st szI idx) (hexp : ExpiryIs w st szE kvs)
    (hIE : st.indexName ≠ st.expiryName) (hdot : st.dotNames = false)
    (hlI : (st.indexName ++ "L") ∉ w.locks)
    (hlE : (st.expiryName ++ "L") ∉ w.locks)
    (hlk : (name ++ "L") ∉ w.locks)
    (hnodupI : idx.Nodup) (_hnodupK : keysNodup kvs)
    (hnodupW : keysNodup w.segments)
    (hkeys : ∀ kv ∈ kvs, validItemName kv.1 ∧ kv.1 ∉ w.failNames ∧
       kv.1 ≠ st.indexName ∧ kv.1 ≠ st.expiryName)
    (hname : validItemName name) (hnI : name ≠ st.indexName)
    (hnE : name ≠ st.expiryName)
    (hseg : w.seg? name = some segk)
    (hnx : name ∉ expiredKeys now kvs)
    (hfit : (encode v).length ≤ segk.size)
    (hidxfit : (encode (.pyStrList (idx ++ [name]))).length ≤ szI) :
    ∃ w1 idx2, storeSet w st now name v 0 = (w1, none) ∧
      idx2 = (if name ∈ sweepIndex now kvs idx then sweepIndex now kvs idx
              else sweepIndex now kvs idx ++ [name]) ∧
      IndexIs w1 st szI idx2 ∧ idx2.Nodup ∧ name ∈ idx2 ∧
      ExpiryIs w1 st szE (sweepExpiry now kvs kvs) ∧
      w1.seg? name
        = some ⟨segk.size,
            encode v ++ List.replicate (segk.size - (encode v).length) 0⟩ ∧
      w1.locks = w.locks ∧ w1.failNames = w.failNames ∧
      keysNodup w1.segments := by
  obtain ⟨w', hm, hlocks', hfail', hidx', hexp', hnodup', hseg'⟩ :=
    maintenance_spec hidx hexp hIE hlI hlE hnodupW
      (fun kv hmem _ => hkeys kv hmem)
  set idx1 := sweepIndex now kvs idx with hidx1def
  set idx2 := (if name ∈ idx1 then idx1 else idx1 ++ [name]) with hidx2def
  have hidx1sub : idx1.Sublist idx := sweepIndex_sublist now kvs idx
  have hidx1nodup : idx1.Nodup := nodup_sweepIndex kvs hnodupI
  have hfit2 : (encode (.pyStrList idx2)).length ≤ szI := by
    rw [hidx2def]
    by_cases hmem : name ∈ idx1
    · rw [if_pos hmem]
      exact le_trans (encode_strList_sublist_le
        (hidx1sub.trans (List.sublist_append_left idx [name]))) hidxfit
    · rw [if_neg hmem]
      exact le_trans (encode_strList_sublist_le
        (hidx1sub.append_right [name])) hidxfit
  have hnodup2 : idx2.Nodup := by
    rw [hidx2def]
    by_cases hmem : name ∈ idx1
    · rw [if_pos hmem]
      exact hidx1nodup
    · rw [if_neg hmem]
      simp [List.nodup_append, hidx1nodup, hmem]
  have hmem2 : name ∈ idx2 := by
    rw [hidx2def]
    by_cases hmem : name ∈ idx1
    · rw [if_pos hmem]
      exact hmem
    · rw [if_neg hmem]
      simp
  have hadd := addToIndex_ok hidx' (by rw [hlocks']; exact hlI) hname.1 hfit2
  set w2 := writeSeg w' st.indexName szI (.pyStrList idx2) with hw2def
  have hsegw' : w'.seg? name = some segk := by
    rw [hseg' name hnI hnE, if_neg hnx]
    exact hseg
  have hsegw2 : w2.seg? name = some segk := by
    rw [hw2def, seg?_writeSeg_ne _ _ _ _ _ hnI]
    exact hsegw'
  have hnew := itemNew_attached hsegw2 hname Nat.one_ne_zero
  have hsetk := itemSet_ok (w := w2) hsegw2
    (by rw [hw2def, writeSeg_locks, hlocks']; exact hlk) hfit
  refine ⟨w2.setSeg name
      ⟨segk.size, encode v ++ List.replicate (segk.size - (encode v).length) 0⟩,
    idx2, ?_, hidx2def, ?_, hnodup2, hmem2, ?_, ?_, ?_, ?_, ?_⟩
  · simp only [storeSet, hm, hdot, Bool.false_eq_true, if_false, hadd, hnew,
      hsetk, gt_iff_lt, Nat.lt_irrefl]
  · refine ⟨hfit2, ?_⟩
    rw [seg?_setSeg_ne _ _ _ _ (Ne.symm hnI), hw2def]
    exact seg?_writeSeg_self _ _ _ _
  · refine ⟨hexp'.1, ?_⟩
    rw [seg?_setSeg_ne _ _ _ _ (Ne.symm hnE), hw2def,
      seg?_writeSeg_ne _ _ _ _ _ (Ne.symm hIE)]
    exact hexp'.2
  · exact seg?_setSeg_self _ _ _
  · rw [setSeg_locks, hw2def, writeSeg_locks, hlocks']
  · rw [setSeg_failNames, hw2def, writeSeg_failNames, hfail']
  · exact keysNodup_setSeg _ _ (keysNodup_writeSeg _ _ _ hnodup')

/-!
## The claims
-/

/-- C2: `DataStoreSharedMemItem.set` with a value strictly larger than the
segment's fixed capacity fails with the value-too-large error (`ValueError`);
the check happens before the lock is acquired and before any write, so the
returned world is the input world and the previously stored payload bytes
are left completely unmodified. -/
theorem c2_item_set_too_large (w : World) (h : Handle) (seg : Segment)
    (value : List Nat) (hatt : h.attached = true)
    (hseg : w.seg? h.name = some seg) (hbig : value.length > seg.size) :
    itemSet w h value = (w, h, some .valueTooLarge) := by
  simp only [itemSet, hatt, Bool.not_true, Bool.false_eq_true, if_false, hseg,
    if_pos hbig]

/-- C2 witness: a two-byte value against the one-byte segment `a`. -/
theorem c2_item_set_too_large_witness :
    (⟨"a", true, none⟩ : Handle).attached = true ∧
    worldOneItem.seg? "a" = some ⟨1, [7]⟩ ∧
    ([5, 6] : List Nat).length > (1 : Nat) ∧
    itemSet worldOneItem ⟨"a", true, none⟩ [5, 6]
      = (worldOneItem, ⟨"a", true, none⟩, some .valueTooLarge) :=
  ⟨rfl, by decide, by decide,
    c2_item_set_too_large worldOneItem ⟨"a", true, none⟩ ⟨1, [7]⟩ [5, 6]
      rfl (by decide) (by decide)⟩

/-- C7: the named mutex is not reentrant.  A handle that already owns its own
lock gets `RuntimeError` (`AlreadyHeld`) from `_acquire_lock` immediately —
it neither succeeds nor enters the spin-wait — and both the world and the
handle are returned unchanged, so the lock remains held. -/
theorem c7_acquire_not_reentrant (w : World) (h : Handle)
    (hheld : h.lock = some h.lockName) :
    acquireLock w h = (w, h, some .alreadyHeld) := by
  simp [acquireLock, hheld]

/-- C7 witness: the handle for item `a` holding its own lock `aL`. -/
theorem c7_acquire_not_reentrant_witness :
    (⟨"a", true, some "aL"⟩ : Handle).lock
        = some (Handle.lockName ⟨"a", true, some "aL"⟩) ∧
    acquireLock worldOneItem ⟨"a", true, some "aL"⟩
      = (worldOneItem, ⟨"a", true, some "aL"⟩, some .alreadyHeld) :=
  ⟨by decide, c7_acquire_not_reentrant _ _ (by decide)⟩

/-- C6: the hierarchical-name validator `_check_dot_name` rejects the
candidate `name` against the existing key set `keys` if and only if some
existing key different from `name` is a strict dot-ancestor of it (`name`
starts with `key ++ "."`) or a strict dot-descendant of it (`key` starts
with `name ++ "."`).  Equality never counts as a conflict, so a candidate
equal to an existing key is accepted unless some other key conflicts. -/
theorem c6_check_dot_name_iff (keys : List String) (name : String) :
    check_dot_name keys name = false ↔
      ∃ k ∈ keys, k ≠ name ∧
        (strStartsWith name (k ++ ".") = true ∨
         strStartsWith k (name ++ ".") = true) := by
  have htrue : check_dot_name keys name = true ↔
      ∀ k ∈ keys, k = name ∨
        (strStartsWith name (k ++ ".") = false ∧
         strStartsWith k (name ++ ".") = false) := by
    rw [check_dot_name, List.all_eq_true]
    constructor
    · intro h k hk
      have := h k hk
      simpa [Bool.or_eq_true, Bool.and_eq_true, Bool.not_eq_true'] using this
    · intro h k hk
      have := h k hk
      simpa [Bool.or_eq_true, Bool.and_eq_true, Bool.not_eq_true'] using this
  constructor
  · intro h
    by_contra hc
    push_neg at hc
    have : check_dot_name keys name = true := by
      rw [htrue]
      intro k hk
      by_cases hkn : k = name
      · exact Or.inl hkn
      · refine Or.inr ⟨?_, ?_⟩
        · cases h1 : strStartsWith name (k ++ ".") with
          | false => rfl
          | true => exact absurd h1 (hc k hk hkn).1
        · cases h2 : strStartsWith k (name ++ ".") with
          | false => rfl
          | true => exact absurd h2 (hc k hk hkn).2
    rw [this] at h
    cases h
  · rintro ⟨k, hk, hkn, hcond⟩
    cases hval : check_dot_name keys name with
    | false => rfl
    | true =>
      rcases (htrue.mp hval) k hk with h1 | h1
      · exact absurd h1 hkn
      · rcases hcond with h2 | h2
        · rw [h1.1] at h2
          cases h2
        · rw [h1.2] at h2
          cases h2

/-- C8: if the transform given to `DataStoreSharedMemItem.update` fails —
it raises, returns non-bytes (both modelled as the transform returning
`Except.error`), or returns a value larger than the segment's capacity
(`ValueError`) — then `update` raises after acquiring the mutex and before
releasing it.  The handle is left holding the lock, the lock resource stays
in existence, and the stored payload is unchanged (the returned world differs
from the input only in the lock set).  Afterwards a `set` through the same
handle fails with `AlreadyHeld`, a `set` through any fresh handle of the same
item fails with `LockTimeout`, and an explicit release restores the initial
world exactly. -/
theorem c8_update_failure_leaves_lock_held (w : World) (n : String)
    (seg : Segment) (f : List Nat → Except Err (List Nat)) (e : Err)
    (hseg : w.seg? n = some seg) (hlock : (n ++ "L") ∉ w.locks)
    (hfail : updFail (f seg.data) seg.size = some e) :
    itemUpdate w ⟨n, true, none⟩ f
      = ({ w with locks := (n ++ "L") :: w.locks },
         ⟨n, true, some (n ++ "L")⟩, some e) ∧
    (∀ v : List Nat, v.length ≤ seg.size →
      itemSet { w with locks := (n ++ "L") :: w.locks }
          ⟨n, true, some (n ++ "L")⟩ v
        = ({ w with locks := (n ++ "L") :: w.locks },
           ⟨n, true, some (n ++ "L")⟩, some .alreadyHeld)) ∧
    (∀ v : List Nat, v.length ≤ seg.size →
      itemSet { w with locks := (n ++ "L") :: w.locks } ⟨n, true, none⟩ v
        = ({ w with locks := (n ++ "L") :: w.locks },
           ⟨n, true, none⟩, some .lockTimeout)) ∧
    releaseLock { w with locks := (n ++ "L") :: w.locks }
        ⟨n, true, some (n ++ "L")⟩
      = (w, ⟨n, true, none⟩, none) := by
  have hseg' : World.seg? { w with locks := (n ++ "L") :: w.locks } n
      = some seg := hseg
  refine ⟨?_, ?_, ?_, ?_⟩
  · simp only [itemUpdate, Bool.not_true, Bool.false_eq_true, if_false, hseg,
      acquireLock, Handle.lockName, if_neg hlock]
    cases hf : f seg.data with
    | error e' =>
      simp only [updFail, hf] at hfail
      cases hfail
      rfl
    | ok nv =>
      simp only [updFail, hf] at hfail
      by_cases hsz : nv.length > seg.size
      · rw [if_pos hsz] at hfail
        cases hfail
        simp only [if_pos hsz]
      · rw [if_neg hsz] at hfail
        cases hfail
  · intro v hv
    simp only [itemSet, Bool.not_true, Bool.false_eq_true, if_false, hseg',
      if_neg (Nat.not_lt.mpr hv), acquireLock, Handle.lockName]
    simp
  · intro v hv
    simp only [itemSet, Bool.not_true, Bool.false_eq_true, if_false, hseg',
      if_neg (Nat.not_lt.mpr hv), acquireLock, Handle.lockName]
    simp
  · have hl : ({ name := n, attached := true, lock := some (n ++ "L") }
        : Handle).lockName = n ++ "L" := rfl
    simp [releaseLock, hl, List.erase_cons_head]

/-- C8 witness: a transform that raises, on the one-byte item `a`. -/
theorem c8_update_failure_leaves_lock_held_witness :
    worldOneItem.seg? "a" = some ⟨1, [7]⟩ ∧
    ("a" ++ "L") ∉ worldOneItem.locks ∧
    itemUpdate worldOneItem ⟨"a", true, none⟩
        (fun _ => .error .corruptState)
      = ({ worldOneItem with locks := ["a" ++ "L"] },
         ⟨"a", true, some ("a" ++ "L")⟩, some .corruptState) ∧
    itemSet { worldOneItem with locks := ["a" ++ "L"] }
        ⟨"a", true, some ("a" ++ "L")⟩ [9]
      = ({ worldOneItem with locks := ["a" ++ "L"] },
         ⟨"a", true, some ("a" ++ "L")⟩, some .alreadyHeld) ∧
    itemSet { worldOneItem with locks := ["a" ++ "L"] } ⟨"a", true, none⟩ [9]
      = ({ worldOneItem with locks := ["a" ++ "L"] },
         ⟨"a", true, none⟩, some .lockTimeout) ∧
    releaseLock { worldOneItem with locks := ["a" ++ "L"] }
        ⟨"a", true, some ("a" ++ "L")⟩
      = (worldOneItem, ⟨"a", true, none⟩, none) := by
  have h := c8_update_failure_leaves_lock_held worldOneItem "a" ⟨1, [7]⟩
    (fun _ => .error .corruptState) .corruptState (by decide) (by decide) rfl
  exact ⟨by decide, by decide, h.1, h.2.1 [9] (by decide),
    h.2.2.1 [9] (by decide), h.2.2.2⟩

/-- C9: whenever `DataStoreSharedMem.__init__` completes, the just-opened
index segment holds the encoding of the empty list and the expiry segment
the encoding of the empty dict — the constructor overwrites them
unconditionally, even when segments of those names already existed with live
keys, so any prior shared state is wiped. -/
theorem c9_init_resets_index_and_expiry (w : World) (name : String)
    (indexSize : Nat) (dn : Bool) (w4 : World) (st : Store)
    (hinit : storeInit w name indexSize dn = (w4, .ok st)) :
    getIndex w4 st = .ok [] ∧ getExpiry w4 st = .ok [] := by
  by_cases hlen : name.data.length > SHARED_MEM_NAME_MAX
  · rw [storeInit, if_pos hlen] at hinit
    simp at hinit
  · rw [storeInit, if_neg hlen] at hinit
    dsimp only at hinit
    cases heqNewI : itemNew w (name ++ "I")
        (if indexSize > DEFAULT_INDEX_SIZE then indexSize
         else DEFAULT_INDEX_SIZE) with
    | mk w1 rI =>
    rw [heqNewI] at hinit
    cases rI with
    | error e => simp at hinit
    | ok hI =>
    dsimp only at hinit
    obtain ⟨hIshape, -, -, -, -⟩ := itemNew_ok_inv heqNewI
    subst hIshape
    cases heqSetI : itemSet w1 ⟨name ++ "I", true, none⟩
        (encode (.pyStrList [])) with
    | mk w2 r2 =>
    rw [heqSetI] at hinit
    obtain ⟨h2h, r2e⟩ := r2
    cases r2e with
    | some e => simp at hinit
    | none =>
    dsimp only at hinit
    obtain ⟨segI, hsegI, hfitI, hlockI, hw2⟩ := itemSet_ok_inv heqSetI
    cases heqNewE : itemNew w2 (name ++ "E")
        (if indexSize > DEFAULT_INDEX_SIZE then indexSize
         else DEFAULT_INDEX_SIZE) with
    | mk w3 rE =>
    rw [heqNewE] at hinit
    cases rE with
    | error e => simp at hinit
    | ok hE =>
    dsimp only at hinit
    obtain ⟨hEshape, -, hEpres, -, -⟩ := itemNew_ok_inv heqNewE
    subst hEshape
    cases heqSetE : itemSet w3 ⟨name ++ "E", true, none⟩
        (encode (.pyDict [])) with
    | mk w4' r4 =>
    rw [heqSetE] at hinit
    obtain ⟨h4h, r4e⟩ := r4
    cases r4e with
    | some e => simp at hinit
    | none =>
    dsimp only at hinit
    obtain ⟨segE, hsegE, hfitE, hlockE, hw4⟩ := itemSet_ok_inv heqSetE
    have hw4' : w4' = w4 := congrArg Prod.fst hinit
    have hst : st = ⟨if name = "" then DEFAULT_SHARED_MEM_NAME else name,
        name ++ "I", name ++ "E", dn⟩ :=
      (Except.ok.inj (congrArg Prod.snd hinit)).symm
    subst hw4'
    subst hst
    have hne := string_append_I_ne_append_E name
    constructor
    · apply getIndex_of_IndexIs (z := segI.size)
      refine ⟨hfitI, ?_⟩
      show World.seg? w4' (name ++ "I") = _
      rw [hw4, seg?_setSeg_ne _ _ _ _ hne,
        hEpres (name ++ "I") hne, hw2, seg?_setSeg_self]
    · apply getExpiry_of_ExpiryIs (z := segE.size)
      refine ⟨hfitE, ?_⟩
      show World.seg? w4' (name ++ "E") = _
      rw [hw4, seg?_setSeg_self]

/-- C9 witness: initialising over pre-existing populated index and expiry
segments wipes both. -/
theorem c9_init_resets_index_and_expiry_witness :
    storeInit worldPopulated "N" 0 false
        = ((storeInit worldPopulated "N" 0 false).1, .ok exStore) ∧
    getIndex worldPopulated exStore = .ok ["x", "y"] ∧
    getExpiry worldPopulated exStore = .ok [("x", 3)] ∧
    getIndex (storeInit worldPopulated "N" 0 false).1 exStore = .ok [] ∧
    getExpiry (storeInit worldPopulated "N" 0 false).1 exStore = .ok [] := by
  have h : storeInit worldPopulated "N" 0 false
      = ((storeInit worldPopulated "N" 0 false).1, .ok exStore) := by decide
  have h2 := c9_init_resets_index_and_expiry worldPopulated "N" 0 false
    (storeInit worldPopulated "N" 0 false).1 exStore h
  exact ⟨h, by decide, by decide, h2.1, h2.2⟩

/-- C3: `DataStoreSharedMem.list(prefix)` runs maintenance first, and then
returns exactly the Index entries whose name starts with the prefix; the
empty prefix returns all Index entries. -/
theorem c3_list_filters_index (w : World) (st : Store) (now : Nat)
    (pfx : String) (w1 : World) (idx : List String)
    (hm : maintenance w st now = (w1, none))
    (hidx : getIndex w1 st = .ok idx) :
    storeList w st now pfx = (w1, .ok (filterItems idx pfx)) ∧
    (∀ n, n ∈ filterItems idx pfx ↔ n ∈ idx ∧ strStartsWith n pfx = true) ∧
    (pfx = "" → filterItems idx pfx = idx) := by
  refine ⟨by simp only [storeList, hm, hidx], ?_, fun hp => by
    simp [filterItems, hp]⟩
  intro n
  by_cases hp : pfx = ""
  · subst hp
    simp [filterItems, strStartsWith]
  · simp [filterItems, hp, List.mem_filter]

/-- C3 witness: listing the store holding keys `k` and `b` at time 5, when
`b` (expiry instant 3) has expired; maintenance removes `b` and the filter
keeps `k`. -/
theorem c3_list_filters_index_witness :
    maintenance worldStale exStore 5
        = ((maintenance worldStale exStore 5).1, none) ∧
    getIndex (maintenance worldStale exStore 5).1 exStore = .ok ["k"] ∧
    storeList worldStale exStore 5 "k"
      = ((maintenance worldStale exStore 5).1, .ok (filterItems ["k"] "k")) ∧
    filterItems ["k"] "k" = ["k"] := by
  have hm : maintenance worldStale exStore 5
      = ((maintenance worldStale exStore 5).1, none) := by decide
  have hidx : getIndex (maintenance worldStale exStore 5).1 exStore
      = .ok ["k"] := by decide
  have h := c3_list_filters_index worldStale exStore 5 "k"
    (maintenance worldStale exStore 5).1 ["k"] hm hidx
  exact ⟨hm, hidx, h.1, by decide⟩

/-- C4 counterexample: at `now = 5` the key `a` has expiry instant exactly
5 — "at or before now" — yet a successful maintenance sweep removes
nothing: the segment, the Expiry Table entry and the Index entry of `a` all
survive, because the code only cleans entries with `now` strictly greater
than the instant. -/
theorem c4_counterexample :
    getExpiry worldBoundary exStore = .ok [("a", 5)] ∧
    maintenance worldBoundary exStore 5 = (worldBoundary, none) ∧
    worldBoundary.seg? "a" = some ⟨4, padded 4 (.pyNat 3)⟩ ∧
    getIndex worldBoundary exStore = .ok ["a"] := by
  refine ⟨by decide, by decide, by decide, by decide⟩

/-- C4 (amended): a successful maintenance sweep removes exactly the Expiry
Table entries whose instant is strictly before `now` — destroying the key's
segment and removing its Expiry Table and Index entries — while entries
whose instant is at or after `now` are left untouched (entry kept, Index
membership unchanged, segment unchanged). -/
theorem c4_sweep_removes_strictly_expired (w : World) (st : Store)
    (now szI szE : Nat) (idx : List String) (kvs : List (String × Nat))
    (hidx : IndexIs w st szI idx) (hexp : ExpiryIs w st szE kvs)
    (hIE : st.indexName ≠ st.expiryName)
    (hlI : (st.indexName ++ "L") ∉ w.locks)
    (hlE : (st.expiryName ++ "L") ∉ w.locks)
    (hnodupI : idx.Nodup) (hnodupK : keysNodup kvs)
    (hnodupW : keysNodup w.segments)
    (hkeys : ∀ kv ∈ kvs, validItemName kv.1 ∧ kv.1 ∉ w.failNames ∧
       kv.1 ≠ st.indexName ∧ kv.1 ≠ st.expiryName) :
    ∃ w' idx' kvs', maintenance w st now = (w', none) ∧
      getIndex w' st = .ok idx' ∧ getExpiry w' st = .ok kvs' ∧
      (∀ k e, (k, e) ∈ kvs → e < now →
        (∀ e2, (k, e2) ∉ kvs') ∧ k ∉ idx' ∧ w'.seg? k = none) ∧
      (∀ k e, (k, e) ∈ kvs → ¬ e < now →
        (k, e) ∈ kvs' ∧ (k ∈ idx ↔ k ∈ idx') ∧ w'.seg? k = w.seg? k) := by
  obtain ⟨w', hm, hlocks, hfail, hidx', hexp', hnodup', hseg⟩ :=
    maintenance_spec hidx hexp hIE hlI hlE hnodupW
      (fun kv hmem _ => hkeys kv hmem)
  refine ⟨w', sweepIndex now kvs idx, sweepExpiry now kvs kvs, hm,
    getIndex_of_IndexIs hidx', getExpiry_of_ExpiryIs hexp', ?_, ?_⟩
  · intro k e hmem he
    have hkE : k ∈ expiredKeys now kvs := mem_expiredKeys.mpr ⟨e, hmem, he⟩
    have hk := hkeys (k, e) hmem
    refine ⟨?_, ?_, ?_⟩
    · intro e2 hc
      rw [mem_sweepExpiry hnodupK] at hc
      exact hc.2 hkE
    · intro hc
      rw [mem_sweepIndex hnodupI] at hc
      exact hc.2 hkE
    · rw [hseg k hk.2.2.1 hk.2.2.2, if_pos hkE]
  · intro k e hmem he
    have hkNE : k ∉ expiredKeys now kvs := by
      intro hc
      obtain ⟨e2, hm2, he2⟩ := mem_expiredKeys.mp hc
      have heq := keysNodup_eq_of_mem hnodupK hmem hm2
      omega
    have hk := hkeys (k, e) hmem
    refine ⟨?_, ?_, ?_⟩
    · rw [mem_sweepExpiry hnodupK]
      exact ⟨hmem, hkNE⟩
    · constructor
      · intro hin
        rw [mem_sweepIndex hnodupI]
        exact ⟨hin, hkNE⟩
      · intro hin
        rw [mem_sweepIndex hnodupI] at hin
        exact hin.1
    · rw [hseg k hk.2.2.1 hk.2.2.2, if_neg hkNE]

/-- C4 (amended) witness: at `now = 6` the instant-5 entry for `a` is
strictly expired and is fully cleaned up. -/
theorem c4_sweep_removes_strictly_expired_witness :
    ∃ w' idx' kvs', maintenance worldBoundary exStore 6 = (w', none) ∧
      getIndex w' exStore = .ok idx' ∧ getExpiry w' exStore = .ok kvs' ∧
      (∀ k e, (k, e) ∈ [("a", 5)] → e < 6 →
        (∀ e2, (k, e2) ∉ kvs') ∧ k ∉ idx' ∧ w'.seg? k = none) ∧
      (∀ k e, (k, e) ∈ [("a", 5)] → ¬ e < 6 →
        (k, e) ∈ kvs' ∧ (k ∈ ["a"] ↔ k ∈ idx') ∧
          w'.seg? k = worldBoundary.seg? k) :=
  c4_sweep_removes_strictly_expired worldBoundary exStore 6 32 32 ["a"]
    [("a", 5)] (by decide) (by decide) (by decide) (by decide) (by decide)
    (by decide) (by decide) (by decide) (by decide)

/-- C5 counterexample: at `now = 10` both `a` (instant 1) and `b` (instant
2) are expired, and unlinking `a`'s segment fails.  The failure is not
caught: `maintenance` raises the error to its caller and stops — `b`'s
segment, Expiry Table entry and Index entry are all left uncleaned (the
store state is returned entirely unchanged) — contradicting the claim that
per-key failures are non-fatal and the sweep continues. -/
theorem c5_counterexample :
    getExpiry worldFailing exStore = .ok [("a", 1), ("b", 2)] ∧
    maintenance worldFailing exStore 10 = (worldFailing, some .osFailure) ∧
    worldFailing.seg? "b" = some ⟨4, padded 4 (.pyNat 4)⟩ ∧
    getIndex worldFailing exStore = .ok ["a", "b"] := by
  refine ⟨by decide, by decide, by decide, by decide⟩

/-- C5 (amended): a failure destroying one key's segment is not caught by
the maintenance sweep: the sweep stops at the first failing expired entry
and the exception propagates to the caller, leaving every later expiry entry
unprocessed.  In particular, when the first expired entry of the snapshot is
the failing one, the whole store state is returned unchanged. -/
theorem c5_failure_aborts_sweep (w : World) (st : Store) (now szE : Nat)
    (kvs pre post : List (String × Nat)) (k : String) (e : Nat)
    (seg : Segment) (hexp : ExpiryIs w st szE kvs)
    (hsplit : kvs = pre ++ (k, e) :: post)
    (hpre : ∀ kv ∈ pre, ¬ now > kv.2)
    (hke : now > e) (hkv : validItemName k) (hkf : k ∈ w.failNames)
    (hseg : w.seg? k = some seg) :
    maintenance w st now = (w, some .osFailure) := by
  rw [maintenance, getExpiry_of_ExpiryIs hexp]
  dsimp only
  rw [hsplit, maintLoop_append_skip pre _ w hpre]
  have h1 : itemNew w k 1 = (w, .ok ⟨k, true, none⟩) :=
    itemNew_attached hseg hkv Nat.one_ne_zero
  have h2 : itemDelete w ⟨k, true, none⟩
      = (w, ⟨k, true, none⟩, some .osFailure) := by
    simp only [itemDelete, Bool.not_true, Bool.false_eq_true, if_false,
      if_pos hkf]
  simp only [maintLoop, if_pos hke, expireOne, h1, h2]

/-- C5 (amended) witness: the `worldFailing` store at `now = 10`, where the
first expired entry `a` fails to unlink. -/
theorem c5_failure_aborts_sweep_witness :
    maintenance worldFailing exStore 10 = (worldFailing, some .osFailure) :=
  c5_failure_aborts_sweep worldFailing exStore 10 32
    [("a", 1), ("b", 2)] [] [("b", 2)] "a" 1
    ⟨4, padded 4 (.pyNat 3)⟩ (by decide) (by decide)
    (by decide) (by decide) (by decide) (by decide) (by decide)

/-- C1 counterexample: the claim quantifies over every name, and the name
`NI` — the store's own index segment name — is storable (it satisfies the
item-name rules) with a value whose encoding (3 bytes) fits that segment's
capacity (16 here).  `set` succeeds, but writing the key's item overwrites
the index segment itself, so the subsequent `get` raises the corrupt-index
`TypeError` instead of returning the value.  The round trip fails. -/
theorem c1_counterexample :
    (encode (.pyNat 7)).length ≤ 16 ∧
    storeSet worldFresh exStore 5 "NI" (.pyNat 7) 0
      = ((storeSet worldFresh exStore 5 "NI" (.pyNat 7) 0).1, none) ∧
    storeGet (storeSet worldFresh exStore 5 "NI" (.pyNat 7) 0).1 exStore 5 "NI"
      = ((storeSet worldFresh exStore 5 "NI" (.pyNat 7) 0).1,
         .error .corruptState) := by
  refine ⟨by decide, by decide, by decide⟩

/-- C1 (amended): for every ordinary key name — one different from the
store's reserved index and expiry segment names — and every value whose
encoding fits the key segment's capacity (and whose index update fits the
index segment), `set(name, v)` succeeds and an immediate `get(name)` returns
exactly `v`.  Proved constructively under the store invariants, with the
key's segment present and not due to expire at the current time. -/
theorem c1_set_get_roundtrip (w : World) (st : Store) (now szI szE : Nat)
    (idx : List String) (kvs : List (String × Nat)) (name : String)
    (v : PyObj) (segk : Segment)
    (hidx : IndexIs w st szI idx) (hexp : ExpiryIs w st szE kvs)
    (hIE : st.indexName ≠ st.expiryName) (hdot : st.dotNames = false)
    (hlI : (st.indexName ++ "L") ∉ w.locks)
    (hlE : (st.expiryName ++ "L") ∉ w.locks)
    (hlk : (name ++ "L") ∉ w.locks)
    (hnodupI : idx.Nodup) (hnodupK : keysNodup kvs)
    (hnodupW : keysNodup w.segments)
    (hkeys : ∀ kv ∈ kvs, validItemName kv.1 ∧ kv.1 ∉ w.failNames ∧
       kv.1 ≠ st.indexName ∧ kv.1 ≠ st.expiryName)
    (hname : validItemName name) (hnI : name ≠ st.indexName)
    (hnE : name ≠ st.expiryName)
    (hseg : w.seg? name = some segk)
    (hnx : name ∉ expiredKeys now kvs)
    (hfit : (encode v).length ≤ segk.size)
    (hidxfit : (encode (.pyStrList (idx ++ [name]))).length ≤ szI) :
    ∃ w1, storeSet w st now name v 0 = (w1, none) ∧
      storeGet w1 st now name = (w1, .ok (some v)) := by
  obtain ⟨w1, idx2, hset, hidx2def, hidx2, hnodup2, hmem2, hexp2, hsegn,
    hlocks1, hfail1, hnodup1⟩ :=
    storeSet_ok w st now szI szE idx kvs name v segk hidx hexp hIE hdot
      hlI hlE hlk hnodupI hnodupK hnodupW hkeys hname hnI hnE hseg hnx
      hfit hidxfit
  refine ⟨w1, hset, ?_⟩
  have hm2 : maintenance w1 st now = (w1, none) :=
    maintenance_noop hexp2 (sweepExpiry_self_not_expired hnodupK)
  have hhas : storeHas w1 st now name = (w1, .ok true) := by
    simp only [storeHas, hm2, getIndex_of_IndexIs hidx2]
    rw [show idx2.contains name = true from List.elem_iff.mpr hmem2]
  have hnew2 := itemNew_attached hsegn hname Nat.one_ne_zero
  simp only [storeGet, hhas, hnew2, itemGet, Bool.not_true,
    Bool.false_eq_true, if_false, hsegn, decode_encode_pad]

/-- C1 (amended) witness: on a fresh store with a pre-existing 8-byte
segment for the key `k`, setting the value 7 and getting it back. -/
theorem c1_set_get_roundtrip_witness :
    ∃ w1, storeSet worldRoundTrip exStore 5 "k" (.pyNat 7) 0 = (w1, none) ∧
      storeGet w1 exStore 5 "k" = (w1, .ok (some (.pyNat 7))) :=
  c1_set_get_roundtrip worldRoundTrip exStore 5 16 16 [] [] "k" (.pyNat 7)
    ⟨8, List.replicate 8 0⟩ (by decide) (by decide) (by decide) (by decide)
    (by decide) (by decide) (by decide) (by decide) (by decide) (by decide)
    (by decide) (by decide) (by decide) (by decide) (by decide) (by decide)
    (by decide) (by decide)

/-- C10 counterexample: `set(name, v, timeout=0)` does NOT leave the Expiry
Table entirely unchanged — the maintenance sweep it runs first removes
already-expired entries.  Here the store holds `k` (expiry 9, in the
future at `now = 5`) and `b` (expiry 3, already expired): setting `k` with
`timeout=0` removes `b`'s Expiry Table entry. -/
theorem c10_counterexample :
    getExpiry worldStale exStore = .ok [("k", 9), ("b", 3)] ∧
    storeSet worldStale exStore 5 "k" (.pyNat 7) 0
      = ((storeSet worldStale exStore 5 "k" (.pyNat 7) 0).1, none) ∧
    getExpiry (storeSet worldStale exStore 5 "k" (.pyNat 7) 0).1 exStore
      = .ok [("k", 9)] := by
  refine ⟨by decide, by decide, by decide⟩

/-- C10 (amended): `set(name, v, timeout=0)` on an ordinary key changes the
Expiry Table only through the maintenance sweep it runs first: it records no
new entry and does not remove the key's previously recorded, not-yet-expired
entry, which survives the overwrite.  Consequently the key still becomes
expired at its old deadline: an Index-touching operation (`has`) at any
later time past that deadline reports the key absent, its segment having
been destroyed by that sweep. -/
theorem c10_set_timeout_zero_keeps_old_expiry (w : World) (st : Store)
    (now szI szE : Nat) (idx : List String) (kvs : List (String × Nat))
    (name : String) (v : PyObj) (segk : Segment)
    (hidx : IndexIs w st szI idx) (hexp : ExpiryIs w st szE kvs)
    (hIE : st.indexName ≠ st.expiryName) (hdot : st.dotNames = false)
    (hlI : (st.indexName ++ "L") ∉ w.locks)
    (hlE : (st.expiryName ++ "L") ∉ w.locks)
    (hlk : (name ++ "L") ∉ w.locks)
    (hnodupI : idx.Nodup) (hnodupK : keysNodup kvs)
    (hnodupW : keysNodup w.segments)
    (hkeys : ∀ kv ∈ kvs, validItemName kv.1 ∧ kv.1 ∉ w.failNames ∧
       kv.1 ≠ st.indexName ∧ kv.1 ≠ st.expiryName)
    (hname : validItemName name) (hnI : name ≠ st.indexName)
    (hnE : name ≠ st.expiryName)
    (hseg : w.seg? name = some segk)
    (hfit : (encode v).length ≤ segk.size)
    (hidxfit : (encode (.pyStrList (idx ++ [name]))).length ≤ szI)
    (e : Nat) (hmem : (name, e) ∈ kvs) (hune : ¬ now > e)
    (now2 : Nat) (hlate : now2 > e) :
    ∃ w1, storeSet w st now name v 0 = (w1, none) ∧
      getExpiry w1 st = .ok (sweepExpiry now kvs kvs) ∧
      (name, e) ∈ sweepExpiry now kvs kvs ∧
      ∃ w2, storeHas w1 st now2 name = (w2, .ok false) ∧
        w2.seg? name = none := by
  have hnx : name ∉ expiredKeys now kvs := by
    intro hc
    obtain ⟨e2, hm2, he2⟩ := mem_expiredKeys.mp hc
    have heq := keysNodup_eq_of_mem hnodupK hmem hm2
    omega
  obtain ⟨w1, idx2, hset, hidx2def, hidx2, hnodup2, hmem2, hexp2, hsegn,
    hlocks1, hfail1, hnodup1⟩ :=
    storeSet_ok w st now szI szE idx kvs name v segk hidx hexp hIE hdot
      hlI hlE hlk hnodupI hnodupK hnodupW hkeys hname hnI hnE hseg hnx
      hfit hidxfit
  have hmem1 : (name, e) ∈ sweepExpiry now kvs kvs := by
    rw [mem_sweepExpiry hnodupK]
    exact ⟨hmem, hnx⟩
  have hnodupK1 : keysNodup (sweepExpiry now kvs kvs) :=
    keysNodup_sweepExpiry kvs hnodupK
  have hkeys1 : ∀ kv ∈ sweepExpiry now kvs kvs,
      validItemName kv.1 ∧ kv.1 ∉ w1.failNames ∧
      kv.1 ≠ st.indexName ∧ kv.1 ≠ st.expiryName := by
    intro kv hm
    have hkv := hkeys kv ((mem_sweepExpiry hnodupK).mp hm).1
    exact ⟨hkv.1, by rw [hfail1]; exact hkv.2.1, hkv.2.2⟩
  obtain ⟨w2, hm2, hlocks2, hfail2, hidx3, hexp3, hnodup3, hseg2⟩ :=
    maintenance_spec (t := now2) hidx2 hexp2 hIE
      (by rw [hlocks1]; exact hlI) (by rw [hlocks1]; exact hlE) hnodup1
      (fun kv hm _ => hkeys1 kv hm)
  have hnameExp : name ∈ expiredKeys now2 (sweepExpiry now kvs kvs) :=
    mem_expiredKeys.mpr ⟨e, hmem1, hlate⟩
  have hnotidx : name ∉ sweepIndex now2 (sweepExpiry now kvs kvs) idx2 := by
    intro hc
    rw [mem_sweepIndex hnodup2] at hc
    exact hc.2 hnameExp
  refine ⟨w1, hset, getExpiry_of_ExpiryIs hexp2, hmem1, w2, ?_, ?_⟩
  · simp only [storeHas, hm2, getIndex_of_IndexIs hidx3]
    rw [show (sweepIndex now2 (sweepExpiry now kvs kvs) idx2).contains name
          = false from by
      cases hc : (sweepIndex now2 (sweepExpiry now kvs kvs) idx2).contains
          name with
      | false => rfl
      | true => exact absurd (List.elem_iff.mp hc) hnotidx]
  · rw [hseg2 name hnI hnE, if_pos hnameExp]

/-- C10 (amended) witness: the store holding `k` with expiry instant 9;
overwriting `k` with `timeout=0` at time 5 keeps the instant-9 entry, and
`has` at time 10 finds the key expired and gone. -/
theorem c10_set_timeout_zero_keeps_old_expiry_witness :
    ∃ w1, storeSet worldStale exStore 5 "k" (.pyNat 7) 0 = (w1, none) ∧
      getExpiry w1 exStore
        = .ok (sweepExpiry 5 [("k", 9), ("b", 3)] [("k", 9), ("b", 3)]) ∧
      ("k", 9) ∈ sweepExpiry 5 [("k", 9), ("b", 3)] [("k", 9), ("b", 3)] ∧
      ∃ w2, storeHas w1 exStore 10 "k" = (w2, .ok false) ∧
        w2.seg? "k" = none :=
  c10_set_timeout_zero_keeps_old_expiry worldStale exStore 5 32 32
    ["k", "b"] [("k", 9), ("b", 3)] "k" (.pyNat 7) ⟨8, padded 8 (.pyNat 3)⟩
    (by decide) (by decide) (by decide) (by decide) (by decide) (by decide)
    (by decide) (by decide) (by decide) (by decide) (by decide) (by decide)
    (by decide) (by decide) (by decide) (by decide) (by decide)
    9 (by decide) (by decide) 10 (by decide)

end AppDataStore
